import Mathlib

set_option maxRecDepth 2000

/-
Verification of the Genesis voxel-cloud memory subsystem.

The Python source (src/memory/voxel_cloud.py, voxel_cloud_clustering.py,
voxel_cloud_query.py, projection.py) is shallowly embedded: numpy float buffers
become lists of rationals, in-place mutation becomes explicit store passing, and
Python exceptions become Option results carrying the store state at the moment
the exception escapes.  Collaborator modules that are not present under src
(octave_frequency, voxel_helpers, frequency_bands, triplanar_projection) are
modelled from the spec, as marked in the doc comments below.
-/

namespace Genesis

/-- Fingerprints, spectra and harmonic buffers are dense numpy float arrays in the
source; they are modelled flattened, as lists of rationals (exact arithmetic in place
of IEEE floats). -/
abbrev Vec := List ℚ

/-- Elementwise dot product of two flattened buffers (np.dot on flattened arrays). -/
def dotV (a b : Vec) : ℚ := (List.zipWith (fun x y => x * y) a b).sum

/-- Sum of squares of a flattened buffer. -/
def sumSq (v : Vec) : ℚ := dotV v v

/-- Embeds np.linalg.norm.  The float square root is modelled by Rat.sqrt, which is
exact whenever the sum of squares is the square of a rational; every concrete vector
used in a witness or counterexample below is chosen so that the model is exact there. -/
def vnorm (v : Vec) : ℚ := Rat.sqrt (sumSq v)

/-- Scalar times buffer, elementwise. -/
def vscale (c : ℚ) (v : Vec) : Vec := v.map (fun x => c * x)

/-- Elementwise sum of two buffers of equal shape. -/
def vaddV (a b : Vec) : Vec := List.zipWith (fun x y => x + y) a b

/-- Elementwise difference of two buffers of equal shape. -/
def vsubV (a b : Vec) : Vec := List.zipWith (fun x y => x - y) a b

/-- The literal 1e-8 used as epsilon guard throughout the source. -/
def eps8 : ℚ := 1 / 100000000

/-- The literal 1e-6 used in the L2 similarity score of query_by_proto_similarity. -/
def eps6 : ℚ := 1 / 1000000

/-- Python int() truncation toward zero of a float, as in numpy astype(int). -/
def truncQ (q : ℚ) : ℤ := if 0 ≤ q then ⌊q⌋ else -⌊-q⌋

/-- compute_proto_similarity from src/memory/voxel_cloud_clustering.py: cosine
similarity in flattened proto space with a 1e-8 guard added to each norm, remapped
from [-1, 1] to [0, 1]. -/
def computeProtoSimilarity (proto1 proto2 : Vec) : ℚ :=
  let norm1 := vnorm proto1 + eps8
  let norm2 := vnorm proto2 + eps8
  (dotV proto1 proto2 / (norm1 * norm2) + 1) / 2

/-- Modelled from the spec: compute_cosine_similarity from the voxel_helpers module
(absent from src), used by query_by_proto_similarity.  Spec 4.3: raw cosine
dot(flatten(a),flatten(b)) / (norm(a) * norm(b) + eps), eps = 1e-8. -/
def computeCosineSimilarity (a b : Vec) : ℚ :=
  dotV a b / (vnorm a * vnorm b + eps8)

/-- WaveCube hash-acceleration coordinates (X, Y, Z, W). -/
abbrev Coord := ℤ × ℤ × ℤ × ℚ

/-- Modelled from the spec: compute_spatial_distance from the triplanar_projection
module (absent from src).  Spec 4.1: literal 3D Euclidean distance between
coordinates, the w component playing no role. -/
def computeSpatialDistance (a b : Coord) : ℚ :=
  Rat.sqrt (((a.1 - b.1 : ℤ) : ℚ) ^ 2 + ((a.2.1 - b.2.1 : ℤ) : ℚ) ^ 2 +
    ((a.2.2.1 - b.2.2.1 : ℤ) : ℚ) ^ 2)

/-- _adaptive_spatial_tolerance from src/memory/voxel_cloud_clustering.py:
min(4.0, max(0.5, base * (1.0 + abs(octave) * 0.15))). -/
def adaptiveSpatialTolerance (octave : ℤ) (base : ℚ) : ℚ :=
  min 4 (max (1/2) (base * (1 + (octave.natAbs : ℚ) * (3/20))))

/-- _wavecube_bucket from src/memory/voxel_cloud_clustering.py: floor division of the
integer coordinates by the bucket size. -/
def wavecubeBucket (c : Coord) (bucketSize : ℤ) : ℤ × ℤ × ℤ :=
  (Int.fdiv c.1 bucketSize, Int.fdiv c.2.1 bucketSize, Int.fdiv c.2.2.1 bucketSize)

/-- One record of the store (ProtoIdentityEntry in src/memory/voxel_cloud.py).
The open metadata dict is represented by the two keys the claims touch: the record
identifier metadata-id (always set at creation) and the optional unit text. -/
structure ProtoIdentityEntry where
  proto_identity : Vec
  mip_levels : List Vec
  frequency : Vec
  mid : String
  unit : Option String
  position : ℚ × ℚ × ℚ
  fundamental_freq : ℚ
  octave : ℤ
  harmonic_signature : List ℚ
  resonance_strength : ℕ
  modality : String
  cross_modal_links : List String
  frequency_band : Option ℤ
  wavecube_coords : Option Coord
deriving DecidableEq

/-- The store (VoxelCloud in src/memory/voxel_cloud.py).  Python dict indexes are
modelled as association lists from key to list of record offsets.  VoxelCloud.__init__
never creates the wavecube_index and wavecube_bucket_size attributes; none models an
absent attribute (what hasattr and getattr observe). -/
structure VoxelCloud where
  width : ℕ
  height : ℕ
  depth : ℕ
  entries : List ProtoIdentityEntry
  spatial_index : List ((ℤ × ℤ × ℤ) × List ℕ)
  frequency_index : List (ℤ × List ℕ)
  wavecube_index : Option (List ((ℤ × ℤ × ℤ) × List ℕ))
  wavecube_bucket_size : Option ℤ
deriving DecidableEq

/-- A fresh store, as built by VoxelCloud.__init__ (only the fields the claims touch;
the two wavecube attributes are never created there). -/
def VoxelCloud.fresh (width height depth : ℕ) : VoxelCloud :=
  { width := width, height := height, depth := depth, entries := [],
    spatial_index := [], frequency_index := [], wavecube_index := none,
    wavecube_bucket_size := none }

/-- Python d.get(key, []) on an index dict. -/
def dictGet {κ : Type} [DecidableEq κ] (d : List (κ × List ℕ)) (k : κ) : List ℕ :=
  match d.find? (fun p => decide (p.1 = k)) with
  | some p => p.2
  | none => []

/-- Python: if key not in d: d[key] = []; d[key].append(i). -/
def dictAppend {κ : Type} [DecidableEq κ] (d : List (κ × List ℕ)) (k : κ) (i : ℕ) :
    List (κ × List ℕ) :=
  if (d.find? (fun p => decide (p.1 = k))).isSome then
    d.map (fun p => if p.1 = k then (p.1, p.2 ++ [i]) else p)
  else d ++ [(k, [i])]

/-- _get_frequency_bin from src/memory/voxel_cloud.py with the default
tolerance 0.05: non-positive fundamentals map to bin 0, otherwise
int(fundamental / 0.05). -/
def getFrequencyBin (fundamental : ℚ) : ℤ :=
  if fundamental ≤ 0 then 0 else truncQ (fundamental / (1/20))

/-- The spatial-grid key of a position, from the create branch:
tuple((position / [width, height, depth] * 10).astype(int)). -/
def gridPos (p : ℚ × ℚ × ℚ) (width height depth : ℕ) : ℤ × ℤ × ℤ :=
  (truncQ (p.1 / (width : ℚ) * 10), truncQ (p.2.1 / (height : ℚ) * 10),
    truncQ (p.2.2 / (depth : ℚ) * 10))

/-- Modelled from the spec: the pure collaborator functions living in modules absent
from src — octave_frequency.extract_fundamental and extract_harmonics (spec 2.1:
spectrum to fundamental frequency and harmonic vector),
voxel_helpers.compute_frequency_position (spec 2.2: spectrum to 3D coordinate),
voxel_helpers.generate_mip_levels (spec 2.3: resolution pyramid),
frequency_bands.FrequencyBandClustering.assign_band (spec 4.5: precomputed band tag),
and triplanar_projection.extract_triplanar_coordinates (spec 4.1: best-effort
coordinate derivation, whose failure — none — must not abort record creation).
The spec fixes only their signatures, so they are carried as an explicit bundle. -/
structure Collaborators where
  fundOf : Vec → ℚ
  harmOf : Vec → ℚ → List ℚ
  posOf : Vec → ℚ × ℚ × ℚ
  mipOf : Vec → List Vec
  bandOf : Vec → ℤ
  triplanarOf : Vec → String → ℤ → Option Coord

/-- _iter_wavecube_candidates from src/memory/voxel_cloud_clustering.py: none when the
wavecube_index attribute is absent or the dict empty, or when no bucket within
ceil(tolerance / bucket_size) of the query bucket holds an offset; otherwise the
collected offsets. -/
def iterWavecubeCandidates (s : VoxelCloud) (coords : Coord) (tol : ℚ) :
    Option (List ℕ) :=
  match s.wavecube_index with
  | none => none
  | some d =>
    if d = [] then none
    else
      let bucketSize := max 1 (s.wavecube_bucket_size.getD 1)
      let bk := wavecubeBucket coords bucketSize
      let radius : ℤ := ⌈tol / (bucketSize : ℚ)⌉
      let offs : List ℤ :=
        if radius < 0 then []
        else (List.range (2 * radius.toNat + 1)).map (fun n => (n : ℤ) - radius)
      let cands : List ℕ :=
        offs.flatMap (fun dx => offs.flatMap (fun dy => offs.flatMap (fun dz =>
          dictGet d (bk.1 + dx, bk.2.1 + dy, bk.2.2 + dz))))
      if cands = [] then none else some cands

/-- One iteration of the spatial-branch loop of find_nearest_proto: skip entries of
another octave or without coordinates, otherwise keep the strictly closer of the
accumulated best and the current candidate (ties keep the earlier). -/
def spatialStep (s : VoxelCloud) (octave : ℤ) (qc : Coord)
    (best : Option (ℚ × ℕ)) (i : ℕ) : Option (ℚ × ℕ) :=
  match s.entries[i]? with
  | none => best
  | some e =>
    if e.octave ≠ octave then best
    else
      match e.wavecube_coords with
      | none => best
      | some ec =>
        match best with
        | none => some (computeSpatialDistance qc ec, i)
        | some b =>
          if computeSpatialDistance qc ec < b.1
            then some (computeSpatialDistance qc ec, i) else some b

/-- One iteration of the cosine-branch loop of find_nearest_proto: skip entries of
another octave, otherwise replace the accumulated best exactly when the similarity is
strictly larger (ties keep the earlier entry). -/
def cosineStep (proto : Vec) (octave : ℤ) (best : ℚ × Option ℕ)
    (p : ℕ × ProtoIdentityEntry) : ℚ × Option ℕ :=
  if p.2.octave ≠ octave then best
  else
    let sim := computeProtoSimilarity proto p.2.proto_identity
    if sim > best.1 then (sim, some p.1) else best

/-- find_nearest_proto from src/memory/voxel_cloud_clustering.py, returning the offset
of the matched record (the source returns the aliased entry object; offsets stand for
object identity in the explicit-state model).  With coordinates: nearest same-octave
record with coordinates by 3D distance, accepted when strictly inside the tolerance.
Without: best same-octave record by remapped cosine similarity, accepted when the best
similarity is at least the threshold. -/
def findNearestProto (s : VoxelCloud) (proto : Vec) (octave : ℤ)
    (similarityThreshold : ℚ) (wavecubeCoords : Option Coord)
    (spatialTolerance : Option ℚ) : Option ℕ :=
  match wavecubeCoords with
  | some qc =>
    let tol := spatialTolerance.getD (adaptiveSpatialTolerance octave 1)
    let cands : List ℕ :=
      match iterWavecubeCandidates s qc tol with
      | some l => l
      | none => List.range s.entries.length
    match cands.foldl (spatialStep s octave qc) none with
    | some b => if b.1 < tol then some b.2 else none
    | none => none
  | none =>
    let best := s.entries.enum.foldl (cosineStep proto octave) (0, none)
    if best.1 ≥ similarityThreshold then best.2 else none

/-- _create_new_entry from src/memory/voxel_cloud.py, for metadata as assembled by
add_or_strengthen_proto (modality, octave, optional unit; no caller id, so the id
defaults to len(entries)). -/
def createNewEntry (C : Collaborators) (s : VoxelCloud) (proto frequency : Vec)
    (modality : String) (octave : ℤ) (unit : Option String) (fundamental : ℚ)
    (harmonics : List ℚ) : ProtoIdentityEntry :=
  { proto_identity := proto
    mip_levels := C.mipOf proto
    frequency := frequency
    mid := toString s.entries.length
    unit := unit
    position := C.posOf frequency
    fundamental_freq := fundamental
    octave := octave
    harmonic_signature := harmonics
    resonance_strength := 1
    modality := modality
    cross_modal_links := []
    frequency_band := some (C.bandOf frequency)
    wavecube_coords := C.triplanarOf frequency modality octave }

/-- The strengthen (merge) branch of add_or_strengthen_proto: increment the resonance,
then blend the stored fingerprint with the incoming one at weight
1 / resonance-after-increment. -/
def strengthenEntry (e : ProtoIdentityEntry) (proto : Vec) : ProtoIdentityEntry :=
  let r := e.resonance_strength + 1
  let wNew : ℚ := 1 / (r : ℚ)
  let wOld : ℚ := 1 - wNew
  { e with
    resonance_strength := r
    proto_identity := vaddV (vscale wOld e.proto_identity) (vscale wNew proto) }

/-- The record assembled by the create branch of add_or_strengthen_proto: the entry
built by _create_new_entry, with the caller-supplied coordinates overriding the
derived ones when present. -/
def createdEntry (C : Collaborators) (s : VoxelCloud) (proto frequency : Vec)
    (modality : String) (octave : ℤ) (unit : Option String)
    (wavecubeCoords : Option Coord) : ProtoIdentityEntry :=
  let entry0 := createNewEntry C s proto frequency modality octave unit
    (C.fundOf frequency) (C.harmOf frequency (C.fundOf frequency))
  match wavecubeCoords with
  | some c => { entry0 with wavecube_coords := some c }
  | none => entry0

/-- add_or_strengthen_proto from src/memory/voxel_cloud_clustering.py.  The result is
the store after the call together with some (offset, is_new) on normal return.  It is
none exactly when the Python call raises: the create branch reads
voxel_cloud.wavecube_index without a hasattr guard once the new record has
coordinates, which is an AttributeError when the attribute is absent — at that point
the record is already appended and the spatial and frequency indexes already updated,
and the first component is that partially mutated store. -/
def addOrStrengthenProto (C : Collaborators) (s : VoxelCloud) (proto frequency : Vec)
    (octave : ℤ) (unit : Option String) (modality : String)
    (similarityThreshold : ℚ) (wavecubeCoords : Option Coord)
    (spatialTolerance : Option ℚ) : VoxelCloud × Option (ℕ × Bool) :=
  match findNearestProto s proto octave similarityThreshold wavecubeCoords
      spatialTolerance with
  | some i =>
    match s.entries[i]? with
    | none => (s, none)
    | some e =>
      ({ s with entries := s.entries.set i (strengthenEntry e proto) },
        some (i, false))
  | none =>
    let entry := createdEntry C s proto frequency modality octave unit wavecubeCoords
    let idx := s.entries.length
    let s1 := { s with entries := s.entries ++ [entry] }
    let s2 := { s1 with
      spatial_index := dictAppend s1.spatial_index
        (gridPos entry.position s1.width s1.height s1.depth) idx }
    let s3 := { s2 with
      frequency_index :=
        dictAppend s2.frequency_index (getFrequencyBin (C.fundOf frequency)) idx }
    match entry.wavecube_coords with
    | none => (s3, some (idx, true))
    | some c =>
      let bucketSize := max 1 (s3.wavecube_bucket_size.getD 1)
      let bk := wavecubeBucket c bucketSize
      match s3.wavecube_index with
      | none => (s3, none)
      | some d =>
        ({ s3 with wavecube_index := some (dictAppend d bk idx) }, some (idx, true))

/-- N successive calls of add_or_strengthen_proto with the same fingerprint, spectrum
and octave, on the cosine path (no coordinates), at the default threshold 0.90. -/
def addNTimes (C : Collaborators) (s : VoxelCloud) (proto frequency : Vec)
    (octave : ℤ) : ℕ → VoxelCloud
  | 0 => s
  | n + 1 =>
    (addOrStrengthenProto C (addNTimes C s proto frequency octave n) proto frequency
      octave none "text" (9/10) none (some 1)).1

/-- Ranking relation for a stable Python sort in descending key order: a before b when
the key of a is larger, equal keys ordered by original offset.  On key-offset pairs
with distinct offsets this is the unique order a stable descending sort produces. -/
def descRank {α : Type} [LinearOrder α] (a b : α × ℕ) : Prop :=
  b.1 < a.1 ∨ (a.1 = b.1 ∧ a.2 ≤ b.2)

/-- Ranking relation for a stable Python sort in ascending key order. -/
def ascRank {α : Type} [LinearOrder α] (a b : α × ℕ) : Prop :=
  a.1 < b.1 ∨ (a.1 = b.1 ∧ a.2 ≤ b.2)

instance {α : Type} [LinearOrder α] : DecidableRel (descRank (α := α)) := fun _ _ =>
  instDecidableOr

instance {α : Type} [LinearOrder α] : DecidableRel (ascRank (α := α)) := fun _ _ =>
  instDecidableOr

instance {α : Type} [LinearOrder α] : IsTotal (α × ℕ) (descRank (α := α)) where
  total a b := by
    rcases lt_trichotomy a.1 b.1 with h | h | h
    · exact Or.inr (Or.inl h)
    · rcases Nat.le_total a.2 b.2 with h2 | h2
      · exact Or.inl (Or.inr ⟨h, h2⟩)
      · exact Or.inr (Or.inr ⟨h.symm, h2⟩)
    · exact Or.inl (Or.inl h)

instance {α : Type} [LinearOrder α] : IsTrans (α × ℕ) (descRank (α := α)) where
  trans a b c hab hbc := by
    rcases hab with h1 | ⟨h1, h1i⟩
    · rcases hbc with h2 | ⟨h2, _⟩
      · exact Or.inl (h2.trans h1)
      · exact Or.inl (h2 ▸ h1)
    · rcases hbc with h2 | ⟨h2, h2i⟩
      · exact Or.inl (h1 ▸ h2)
      · exact Or.inr ⟨h1.trans h2, h1i.trans h2i⟩

instance {α : Type} [LinearOrder α] : IsTotal (α × ℕ) (ascRank (α := α)) where
  total a b := by
    rcases lt_trichotomy a.1 b.1 with h | h | h
    · exact Or.inl (Or.inl h)
    · rcases Nat.le_total a.2 b.2 with h2 | h2
      · exact Or.inl (Or.inr ⟨h, h2⟩)
      · exact Or.inr (Or.inr ⟨h.symm, h2⟩)
    · exact Or.inr (Or.inl h)

instance {α : Type} [LinearOrder α] : IsTrans (α × ℕ) (ascRank (α := α)) where
  trans a b c hab hbc := by
    rcases hab with h1 | ⟨h1, h1i⟩
    · rcases hbc with h2 | ⟨h2, _⟩
      · exact Or.inl (h1.trans h2)
      · exact Or.inl (h2 ▸ h1)
    · rcases hbc with h2 | ⟨h2, h2i⟩
      · exact Or.inl (h1 ▸ h2)
      · exact Or.inr ⟨h1.trans h2, h1i.trans h2i⟩

/-- The score query_by_proto_similarity assigns a stored record: raw cosine when the
metric string is cosine, otherwise 1 / (l2-distance + 1e-6). -/
def simScore (metric : String) (query p : Vec) : ℚ :=
  if metric = "cosine" then computeCosineSimilarity query p
  else 1 / (vnorm (vsubV query p) + eps6)

/-- query_by_proto_similarity from src/memory/voxel_cloud_query.py, returning record
offsets.  The Python stable sort on the score alone with reverse=True is modelled by
sorting score-offset pairs by descRank. -/
def queryByProtoSimilarity (s : VoxelCloud) (query : Vec) (maxResults : ℕ)
    (metric : String) : List ℕ :=
  if s.entries.length = 0 then []
  else
    let sims := s.entries.enum.map
      (fun p => (simScore metric query p.2.proto_identity, p.1))
    ((sims.insertionSort descRank).take maxResults).map (fun q => q.2)

/-- 3D position difference. -/
def sub3 (a b : ℚ × ℚ × ℚ) : ℚ × ℚ × ℚ := (a.1 - b.1, a.2.1 - b.2.1, a.2.2 - b.2.2)

/-- 3D dot product. -/
def dot3 (a b : ℚ × ℚ × ℚ) : ℚ := a.1 * b.1 + a.2.1 * b.2.1 + a.2.2 * b.2.2

/-- np.linalg.norm on a 3D vector, square root modelled by Rat.sqrt as in vnorm. -/
def norm3 (a : ℚ × ℚ × ℚ) : ℚ := Rat.sqrt (dot3 a a)

/-- np.clip(x, -1.0, 1.0). -/
def clip1 (x : ℚ) : ℚ := min 1 (max (-1) x)

/-- The camera of src/memory/projection.py (ProjectionMatrix), restricted to the
fields raycasting reads.  The source stores the field of view in degrees and tests
degrees(arccos(clip(depth / (distance + 1e-8)))) <= fov / 2; arccos is strictly
decreasing and the angle lies in [0, 180] degrees, so for fov in [0, 360] the test is
equivalent to clip(depth / (distance + 1e-8)) >= cos(radians(fov) / 2), and the camera
carries that cosine directly. -/
structure ProjectionCamera where
  position : ℚ × ℚ × ℚ
  lookAt : ℚ × ℚ × ℚ
  near : ℚ
  far : ℚ
  cosHalfFov : ℚ
deriving DecidableEq

/-- _forward from src/memory/projection.py: the normalized look direction, defaulting
to (0, 0, 1) when look_at coincides with the position. -/
def cameraForward (cam : ProjectionCamera) : ℚ × ℚ × ℚ :=
  let f := sub3 cam.lookAt cam.position
  let n := norm3 f
  if n = 0 then (0, 0, 1) else (f.1 / n, f.2.1 / n, f.2.2 / n)

/-- Depth of a voxel along the camera forward vector, as computed inside
is_voxel_visible. -/
def voxelDepth (cam : ProjectionCamera) (pos : ℚ × ℚ × ℚ) : ℚ :=
  dot3 (sub3 pos cam.position) (cameraForward cam)

/-- is_voxel_visible from src/memory/projection.py: always true within 1e-8 of the
camera, otherwise false outside the depth window [near - voxel_size, far + voxel_size]
and decided by the half-field-of-view cone test inside it. -/
def isVoxelVisible (cam : ProjectionCamera) (pos : ℚ × ℚ × ℚ) (voxelSize : ℚ) :
    Bool :=
  let toVoxel := sub3 pos cam.position
  let distance := norm3 toVoxel
  if distance ≤ eps8 then true
  else
    let depth := dot3 toVoxel (cameraForward cam)
    if depth < cam.near - voxelSize ∨ depth > cam.far + voxelSize then false
    else decide (clip1 (depth / (distance + eps8)) ≥ cam.cosHalfFov)

/-- compute_lod_level from src/memory/projection.py: level-of-detail bucket from the
distance to the camera. -/
def computeLodLevel (cam : ProjectionCamera) (pos : ℚ × ℚ × ℚ) : ℕ :=
  let distance := norm3 (sub3 pos cam.position)
  if distance < 10 then 0
  else if distance < 100 then 1
  else if distance < 200 then 2
  else if distance < 400 then 3
  else 4

/-- query_by_raycast from src/memory/voxel_cloud_query.py, returning record offsets:
filter by is_voxel_visible at voxel_size 5.0 (pairing each with its LOD bucket, which
the source computes and then drops from the returned list), stable-sort ascending by
distance to the camera, and truncate to max_results. -/
def queryByRaycast (s : VoxelCloud) (cam : ProjectionCamera) (maxResults : ℕ) :
    List ℕ :=
  let visible := s.entries.enum.filter (fun p => isVoxelVisible cam p.2.position 5)
  let keyed := visible.map (fun p => (norm3 (sub3 p.2.position cam.position), p.1))
  ((keyed.insertionSort ascRank).take maxResults).map (fun q => q.2)

/-- Modelled from the spec: FrequencyBandClustering.cluster_by_band from the
frequency_bands module (absent from src); spec 4.5: filter the records by the
precomputed band tag.  Returns offsets in store order. -/
def clusterByBand (s : VoxelCloud) (band : ℤ) : List ℕ :=
  (s.entries.enum.filter (fun p => decide (p.2.frequency_band = some band))).map
    (fun p => p.1)

/-- query_by_frequency_band from src/memory/voxel_cloud_query.py: a band outside
{0, 1, 2} raises ValueError (modelled as Except.error carrying the message); a valid
band filters by band tag, stable-sorts by descending resonance_strength and truncates
to max_results.  Offsets are returned. -/
def queryByFrequencyBand (s : VoxelCloud) (band : ℤ) (maxResults : ℕ) :
    Except String (List ℕ) :=
  if band = 0 ∨ band = 1 ∨ band = 2 then
    let keyed := (clusterByBand s band).map
      (fun i => (((s.entries[i]?).map (fun e => e.resonance_strength)).getD 0, i))
    Except.ok (((keyed.insertionSort descRank).take maxResults).map (fun q => q.2))
  else
    Except.error ("Invalid band " ++ toString band ++
      ". Must be 0 (LOW), 1 (MID), or 2 (HIGH)")

/-- find_cross_modal_links from src/memory/voxel_cloud_query.py, returning offsets:
records of a different modality that appear in the queried record's link set or that
list the queried record's identifier. -/
def findCrossModalLinks (s : VoxelCloud) (entry : ProtoIdentityEntry) : List ℕ :=
  (s.entries.enum.filter (fun p => decide (p.2.modality ≠ entry.modality) &&
    (decide (p.2.mid ∈ entry.cross_modal_links) ||
      decide (entry.mid ∈ p.2.cross_modal_links)))).map (fun p => p.1)

/-- Offsets of the records with a given modality, in store order (the by_modality
grouping of link_cross_modal_protos). -/
def modalityIdxs (s : VoxelCloud) (m : String) : List ℕ :=
  (s.entries.enum.filter (fun p => decide (p.2.modality = m))).map (fun p => p.1)

/-- One text–other pair of the linking pass of link_cross_modal_protos: when the
fundamentals differ by strictly less than the tolerance, append the other identifier
to the text record's links if absent (counting it), and the text identifier to the
other record's links if absent (not counted).  Faithful to the source only for
t different from j, which holds in context since the two records have different
modalities. -/
def linkPairStep (tol : ℚ) (t : ℕ) (acc : VoxelCloud × ℕ) (j : ℕ) :
    VoxelCloud × ℕ :=
  let s := acc.1
  match s.entries[t]?, s.entries[j]? with
  | some te, some je =>
    if |je.fundamental_freq - te.fundamental_freq| < tol then
      let te2 := { te with cross_modal_links := te.cross_modal_links ++ [je.mid] }
      let je2 := { je with cross_modal_links := je.cross_modal_links ++ [te.mid] }
      let p1 : VoxelCloud × ℕ :=
        if je.mid ∈ te.cross_modal_links then (s, acc.2)
        else ({ s with entries := s.entries.set t te2 }, acc.2 + 1)
      if te.mid ∈ je.cross_modal_links then p1
      else ({ p1.1 with entries := p1.1.entries.set j je2 }, p1.2)
    else acc
  | _, _ => acc

/-- link_cross_modal_protos from src/memory/voxel_cloud_query.py: for every text
record in store order, run the pair step against every image record and then every
audio record; records of any other modality are never visited.  Returns the store
after the pass and the count of text-side links newly appended. -/
def linkCrossModalProtos (s : VoxelCloud) (tol : ℚ) : VoxelCloud × ℕ :=
  let textIdxs := modalityIdxs s "text"
  let otherIdxs := modalityIdxs s "image" ++ modalityIdxs s "audio"
  textIdxs.foldl (fun acc t => otherIdxs.foldl (linkPairStep tol t) acc) (s, 0)

/-
Statement-side definitions: the quantities the claims talk about, written over the
embedded store.
-/

/-- The remapped cosine similarities of the incoming fingerprint against the
same-octave records, in store order (what the cosine branch of find_nearest_proto
maximizes over). -/
def octSims (s : VoxelCloud) (proto : Vec) (octave : ℤ) : List ℚ :=
  (s.entries.filter (fun e => decide (e.octave = octave))).map
    (fun e => computeProtoSimilarity proto e.proto_identity)

/-- The score query_by_proto_similarity assigns the record at a given offset (0 for an
offset out of range). -/
def scoreAt (s : VoxelCloud) (metric : String) (query : Vec) (i : ℕ) : ℚ :=
  match s.entries[i]? with
  | some e => simScore metric query e.proto_identity
  | none => 0

/-- The camera distance of the record at a given offset (0 out of range). -/
def distAt (s : VoxelCloud) (cam : ProjectionCamera) (i : ℕ) : ℚ :=
  match s.entries[i]? with
  | some e => norm3 (sub3 e.position cam.position)
  | none => 0

/-- The resonance of the record at a given offset (0 out of range). -/
def resAt (s : VoxelCloud) (i : ℕ) : ℕ :=
  ((s.entries[i]?).map (fun e => e.resonance_strength)).getD 0

/-- The number of (text, image-or-audio) record pairs whose fundamentals differ by
strictly less than the tolerance and whose text-side link is not already present:
what link_cross_modal_protos counts when all record identifiers are distinct. -/
def newLinkCount (s : VoxelCloud) (tol : ℚ) : ℕ :=
  ((modalityIdxs s "text").map (fun t =>
    ((modalityIdxs s "image" ++ modalityIdxs s "audio").filter (fun j =>
      match s.entries[t]?, s.entries[j]? with
      | some te, some je =>
        decide (|je.fundamental_freq - te.fundamental_freq| < tol) &&
          decide (je.mid ∉ te.cross_modal_links)
      | _, _ => false)).length)).sum

/-- Two stores agree entrywise on identifier, modality and fundamental (the fields
the linker reads), and have equally many records. -/
def FieldsEq (s a : VoxelCloud) : Prop :=
  a.entries.length = s.entries.length ∧
  ∀ i : ℕ, ((a.entries[i]?).map (fun e => (e.mid, e.modality, e.fundamental_freq)))
    = ((s.entries[i]?).map (fun e => (e.mid, e.modality, e.fundamental_freq)))

/-- Every link set of the first store is contained in the corresponding link set of
the second. -/
def LinksMono (a b : VoxelCloud) : Prop :=
  ∀ (i : ℕ) (ea : ProtoIdentityEntry), a.entries[i]? = some ea →
    ∃ eb, b.entries[i]? = some eb ∧
      ∀ x ∈ ea.cross_modal_links, x ∈ eb.cross_modal_links

/-- The records at two offsets each list the given identifier of the other. -/
def MutualAt (a : VoxelCloud) (t j : ℕ) (mt mj : String) : Prop :=
  ∃ te je, a.entries[t]? = some te ∧ a.entries[j]? = some je ∧
    mj ∈ te.cross_modal_links ∧ mt ∈ je.cross_modal_links

/-- Replace the record at an offset (the in-place mutation of one stored record). -/
def setEntry (a : VoxelCloud) (m : ℕ) (e : ProtoIdentityEntry) : VoxelCloud :=
  { a with entries := a.entries.set m e }

/-- Every (text, image-or-audio) pair within tolerance is mutually linked. -/
def AllLinked (s : VoxelCloud) (tol : ℚ) : Prop :=
  ∀ (t j : ℕ) (te je : ProtoIdentityEntry), s.entries[t]? = some te →
    s.entries[j]? = some je → te.modality = "text" →
    (je.modality = "image" ∨ je.modality = "audio") →
    |je.fundamental_freq - te.fundamental_freq| < tol →
    je.mid ∈ te.cross_modal_links ∧ te.mid ∈ je.cross_modal_links

/-- All-zero buffer of a given length. -/
def vzero (n : ℕ) : Vec := List.replicate n 0

/-- Elementwise sum of a list of buffers of length d. -/
def vsum (d : ℕ) (us : List Vec) : Vec := us.foldr vaddV (vzero d)

/-
Concrete fixtures for witnesses and counterexamples.
-/

/-- A concrete collaborator bundle for concrete runs: constant signature and position,
empty pyramid, band 0, coordinate derivation always failing (as it does when the
triplanar module cannot be imported). -/
def trivialCollaborators : Collaborators :=
  { fundOf := fun _ => 0
    harmOf := fun _ _ => []
    posOf := fun _ => (0, 0, 0)
    mipOf := fun _ => []
    bandOf := fun _ => 0
    triplanarOf := fun _ _ _ => none }

/-- One cosine-path call of add_or_strengthen_proto at octave 0 with the defaults,
fingerprint also serving as spectrum. -/
def addPlain (v : Vec) (s : VoxelCloud) : VoxelCloud :=
  (addOrStrengthenProto trivialCollaborators s v v 0 none "text" (9/10) none
    (some 1)).1

/-- A baseline record for fixtures. -/
def baseEntry : ProtoIdentityEntry :=
  { proto_identity := [1], mip_levels := [], frequency := [1], mid := "0",
    unit := none, position := (0, 0, 0), fundamental_freq := 0, octave := 0,
    harmonic_signature := [], resonance_strength := 1, modality := "text",
    cross_modal_links := [], frequency_band := some 0, wavecube_coords := none }

/-- The store of the C2 counterexample: three cosine-path adds whose third call merges
and drags the first fingerprint within threshold of the second record. -/
def driftStore : VoxelCloud :=
  addPlain [12/13, 5/13] (addPlain [1, 0] (addPlain [4/5, 3/5]
    (VoxelCloud.fresh 512 512 128)))

/-- The similarity exactly at the default threshold: the remapped similarity of [1]
against this one-component fingerprint is exactly 9/10. -/
def boundaryQ : ℚ := 100000001 / 2499999900000000

/-- Store holding the boundary fingerprint only (at octave 0, resonance 1). -/
def boundaryStore : VoxelCloud :=
  { VoxelCloud.fresh 512 512 128 with
    entries := [{ baseEntry with proto_identity := [boundaryQ] }] }

/-- Store holding the single record [4/5, 3/5] at octave 0, for the C2 witness. -/
def aEntryStore : VoxelCloud :=
  { VoxelCloud.fresh 512 512 128 with
    entries := [{ baseEntry with proto_identity := [4/5, 3/5] }] }

/-- Store with an exact copy of the query [1] at offset 0 and a doubled copy at
offset 1, for the C6 cosine counterexample. -/
def scaledPairStore : VoxelCloud :=
  { VoxelCloud.fresh 512 512 128 with
    entries := [baseEntry, { baseEntry with proto_identity := [2], mid := "1" }] }

/-- Camera with near plane 10 looking down the z axis (half-fov cosine 1/2, that is
a 120 degree field of view). -/
def nearCamera : ProjectionCamera :=
  { position := (0, 0, 0), lookAt := (0, 0, 1), near := 10, far := 1000,
    cosHalfFov := 1/2 }

/-- Store with a single record sitting exactly at the camera position. -/
def atCameraStore : VoxelCloud :=
  { VoxelCloud.fresh 512 512 128 with entries := [baseEntry] }

/-- A record tagged with a band and a resonance, for the C8 witness. -/
def bandEntry (b : ℤ) (r : ℕ) (i : ℕ) : ProtoIdentityEntry :=
  { baseEntry with
    frequency_band := some b
    resonance_strength := r
    mid := toString i }

/-- Store with five records pre-tagged with bands [0, 1, 1, 2, 1], the band-1 records
carrying resonances 2, 7 and 4. -/
def fiveBandStore : VoxelCloud :=
  { VoxelCloud.fresh 512 512 128 with
    entries := [bandEntry 0 1 0, bandEntry 1 2 1, bandEntry 1 7 2, bandEntry 2 1 3,
      bandEntry 1 4 4] }

/-- A text record with fundamental 5. -/
def textEntry : ProtoIdentityEntry :=
  { baseEntry with modality := "text", mid := "t0", fundamental_freq := 5 }

/-- A video record with fundamental 5. -/
def videoEntry : ProtoIdentityEntry :=
  { baseEntry with modality := "video", mid := "v0", fundamental_freq := 5 }

/-- An image record with fundamental 5. -/
def imageEntry : ProtoIdentityEntry :=
  { baseEntry with modality := "image", mid := "i0", fundamental_freq := 5 }

/-- A text record and a video record sharing a fundamental, for the C9
counterexample. -/
def textVideoStore : VoxelCloud :=
  { VoxelCloud.fresh 512 512 128 with entries := [textEntry, videoEntry] }

/-- A text record and an image record sharing a fundamental, for the C9 witness. -/
def textImageStore : VoxelCloud :=
  { VoxelCloud.fresh 512 512 128 with entries := [textEntry, imageEntry] }

/-- A second text record listing the first in its link set. -/
def textEntry2 : ProtoIdentityEntry :=
  { baseEntry with
    modality := "text"
    mid := "t1"
    fundamental_freq := 5
    cross_modal_links := ["t0"] }

/-- Two text records, the second listing the first in its link set, for the C10
witness. -/
def twoTextStore : VoxelCloud :=
  { VoxelCloud.fresh 512 512 128 with entries := [textEntry, textEntry2] }

/-- An image record that lists the identifier of the text record. -/
def imageEntryLinked : ProtoIdentityEntry :=
  { imageEntry with cross_modal_links := ["t0"] }

/-- A text record next to an image record listing it, for the C10 witness. -/
def crossStore : VoxelCloud :=
  { VoxelCloud.fresh 512 512 128 with entries := [textEntry, imageEntryLinked] }

/-- The run of the C3 failing input: a coordinate-supplied add on a fresh store. -/
def c3Run : VoxelCloud × Option (ℕ × Bool) :=
  addOrStrengthenProto trivialCollaborators (VoxelCloud.fresh 512 512 128) [1] [1] 0
    none "text" (9/10) (some (0, 0, 0, 0)) (some 1)

/-
Helper lemmas shared by the claim theorems.
-/

theorem enumFrom_map_snd {α : Type} :
    ∀ (n : ℕ) (l : List α), (List.enumFrom n l).map Prod.snd = l
  | _, [] => rfl
  | n, a :: l => by
    simp only [List.enumFrom, List.map_cons]
    exact congrArg (a :: ·) (enumFrom_map_snd (n + 1) l)

theorem enum_map_snd {α : Type} (l : List α) : l.enum.map Prod.snd = l :=
  enumFrom_map_snd 0 l

theorem mem_enum_getElem {α : Type} {l : List α} {p : ℕ × α} (hp : p ∈ l.enum) :
    l[p.1]? = some p.2 := by
  exact List.mem_enum_iff_getElem?.mp hp

/-- C3: the add operation is claimed to be atomic — either the record and every
applicable index entry are installed, or the call fails with the store unchanged.
The code violates this: on a fresh store, a create with a supplied coordinate appends
the record and fills the spatial and frequency indexes, then raises AttributeError
reading the wavecube_index attribute that VoxelCloud.__init__ never creates, so the
call escapes with the store changed and the record missing from the applicable
coordinate hash. -/
theorem c3_add_atomicity_bug :
    c3Run.2 = none ∧
    c3Run.1.entries.length = 1 ∧
    dictGet c3Run.1.spatial_index (0, 0, 0) = [0] ∧
    dictGet c3Run.1.frequency_index 0 = [0] ∧
    c3Run.1.wavecube_index = none := by
  with_unfolding_all decide

theorem foldl_max_init_le (l : List ℚ) (b : ℚ) : b ≤ l.foldl max b := by
  induction l generalizing b with
  | nil => exact le_refl b
  | cons x xs ih => exact le_trans (le_max_left b x) (ih (max b x))

theorem le_foldl_max_of_mem {a : ℚ} (l : List ℚ) (ha : a ∈ l) (b : ℚ) :
    a ≤ l.foldl max b := by
  induction l generalizing b with
  | nil => cases ha
  | cons x xs ih =>
    rcases List.mem_cons.mp ha with h | h
    · subst h
      exact le_trans (le_max_right b a) (foldl_max_init_le xs _)
    · exact ih h _

/-- The first component of the cosine-branch fold of find_nearest_proto is the running
maximum, over the same-octave entries seen so far, of the remapped similarities,
started at the initial accumulator. -/
theorem cosineFold_fst (proto : Vec) (octave : ℤ) (l : List (ℕ × ProtoIdentityEntry))
    (b : ℚ) (m : Option ℕ) :
    (l.foldl (cosineStep proto octave) (b, m)).1 =
      (((l.map Prod.snd).filter (fun e => decide (e.octave = octave))).map
        (fun e => computeProtoSimilarity proto e.proto_identity)).foldl max b := by
  induction l generalizing b m with
  | nil => rfl
  | cons p t ih =>
    rw [List.foldl_cons, List.map_cons]
    by_cases hoc : p.2.octave = octave
    · have hstep : cosineStep proto octave (b, m) p =
          (if computeProtoSimilarity proto p.2.proto_identity > b
            then (computeProtoSimilarity proto p.2.proto_identity, some p.1)
            else (b, m)) := by
        unfold cosineStep
        rw [if_neg (not_not_intro hoc)]
      rw [hstep, List.filter_cons_of_pos (by simpa using hoc), List.map_cons,
        List.foldl_cons]
      by_cases hsim : computeProtoSimilarity proto p.2.proto_identity > b
      · rw [if_pos hsim, ih, max_eq_right (le_of_lt hsim)]
      · rw [if_neg hsim, ih, max_eq_left (not_lt.mp hsim)]
    · have hstep : cosineStep proto octave (b, m) p = (b, m) := by
        unfold cosineStep
        rw [if_pos hoc]
      rw [hstep, List.filter_cons_of_neg (by simpa using hoc), ih]

/-- A strictly positive best similarity in the cosine-branch fold comes with a
matched offset. -/
theorem cosineFold_isSome (proto : Vec) (octave : ℤ)
    (l : List (ℕ × ProtoIdentityEntry)) (b : ℚ) (m : Option ℕ)
    (hm : 0 < b → m.isSome) :
    0 < (l.foldl (cosineStep proto octave) (b, m)).1 →
      ((l.foldl (cosineStep proto octave) (b, m)).2).isSome := by
  induction l generalizing b m with
  | nil => exact hm
  | cons p t ih =>
    rw [List.foldl_cons]
    unfold cosineStep
    by_cases hne : p.2.octave ≠ octave
    · rw [if_pos hne]; exact ih b m hm
    · rw [if_neg hne]
      by_cases hsim : computeProtoSimilarity proto p.2.proto_identity > b
      · rw [if_pos hsim]
        exact ih _ _ (fun _ => rfl)
      · rw [if_neg hsim]
        exact ih b m hm

/-- Any offset the cosine-branch fold can settle on satisfies a property holding of
the initial accumulator and of every same-octave pair of the list. -/
theorem cosineFold_good (proto : Vec) (octave : ℤ) (P : ℕ → Prop)
    (l : List (ℕ × ProtoIdentityEntry)) (b : ℚ) (m : Option ℕ)
    (hl : ∀ p ∈ l, p.2.octave = octave → P p.1)
    (hm : ∀ i, m = some i → P i) :
    ∀ i, (l.foldl (cosineStep proto octave) (b, m)).2 = some i → P i := by
  induction l generalizing b m with
  | nil => exact hm
  | cons p t ih =>
    rw [List.foldl_cons]
    unfold cosineStep
    by_cases hne : p.2.octave ≠ octave
    · rw [if_pos hne]
      exact ih b m (fun q hq => hl q (List.mem_cons_of_mem p hq)) hm
    · rw [if_neg hne]
      by_cases hsim : computeProtoSimilarity proto p.2.proto_identity > b
      · rw [if_pos hsim]
        refine ih _ _ (fun q hq => hl q (List.mem_cons_of_mem p hq)) ?_
        intro i hi
        have hp1 : p.1 = i := by simpa using hi
        subst hp1
        exact hl p (List.mem_cons_self p t) (not_not.mp hne)
      · rw [if_neg hsim]
        exact ih b m (fun q hq => hl q (List.mem_cons_of_mem p hq)) hm

/-- On the cosine branch, the best similarity of find_nearest_proto is the maximum of
the same-octave similarities (with floor 0). -/
theorem cosine_best_fst (s : VoxelCloud) (proto : Vec) (octave : ℤ) :
    (s.entries.enum.foldl (cosineStep proto octave) (0, none)).1 =
      (octSims s proto octave).foldl max 0 := by
  rw [cosineFold_fst, enum_map_snd]
  rfl

/-- One spatial step keeps the matched-offset property: the offset it can introduce
is the scanned candidate, which passed the equal-octave guard. -/
theorem spatialStep_good (s : VoxelCloud) (octave : ℤ) (qc : Coord)
    (acc : Option (ℚ × ℕ)) (x : ℕ)
    (hacc : ∀ d j, acc = some (d, j) → ∃ e, s.entries[j]? = some e ∧
      e.octave = octave) :
    ∀ d j, spatialStep s octave qc acc x = some (d, j) →
      ∃ e, s.entries[j]? = some e ∧ e.octave = octave := by
  intro d j hstep
  unfold spatialStep at hstep
  split at hstep
  · exact hacc d j hstep
  · rename_i e he
    split at hstep
    · exact hacc d j hstep
    · rename_i hoc
      split at hstep
      · exact hacc d j hstep
      · rename_i ec hw
        split at hstep
        · have hj : x = j := by
            simp only [Option.some.injEq, Prod.mk.injEq] at hstep
            exact hstep.2
          subst hj
          exact ⟨e, he, not_not.mp hoc⟩
        · rename_i b
          split at hstep
          · have hj : x = j := by
              simp only [Option.some.injEq, Prod.mk.injEq] at hstep
              exact hstep.2
            subst hj
            exact ⟨e, he, not_not.mp hoc⟩
          · refine hacc d j ?_
            simp only [Option.some.injEq] at hstep
            rw [hstep]

/-- The spatial-branch fold of find_nearest_proto only settles on offsets of
same-octave records. -/
theorem spatialFold_good (s : VoxelCloud) (octave : ℤ) (qc : Coord) (l : List ℕ)
    (acc : Option (ℚ × ℕ))
    (hacc : ∀ d j, acc = some (d, j) → ∃ e, s.entries[j]? = some e ∧
      e.octave = octave) :
    ∀ d j, l.foldl (spatialStep s octave qc) acc = some (d, j) →
      ∃ e, s.entries[j]? = some e ∧ e.octave = octave := by
  induction l generalizing acc with
  | nil => exact hacc
  | cons x xs ih =>
    rw [List.foldl_cons]
    exact ih _ (spatialStep_good s octave qc acc x hacc)

/-- Offsets returned by find_nearest_proto always carry a record of the requested
octave (both the spatial and the cosine branch filter on equal octave). -/
theorem findNearest_octave (s : VoxelCloud) (proto : Vec) (octave : ℤ) (θ : ℚ)
    (coords : Option Coord) (tol : Option ℚ) (i : ℕ)
    (hi : findNearestProto s proto octave θ coords tol = some i) :
    ∃ e, s.entries[i]? = some e ∧ e.octave = octave := by
  cases coords with
  | some qc =>
    unfold findNearestProto at hi
    simp only at hi
    split at hi
    · rename_i b hb
      split at hi
      · have hbi : b.2 = i := by simpa using hi
        subst hbi
        exact spatialFold_good s octave qc _ none (by intro d j h; cases h) b.1 b.2 hb
      · cases hi
    · cases hi
  | none =>
    unfold findNearestProto at hi
    simp only at hi
    split at hi
    · refine cosineFold_good proto octave
        (fun j => ∃ e, s.entries[j]? = some e ∧ e.octave = octave)
        s.entries.enum 0 none ?_ (by intro j h; cases h) i hi
      intro p hp hoc
      exact ⟨p.2, mem_enum_getElem hp, hoc⟩
    · cases hi

/-- When the maximum same-octave similarity stays below the threshold, the cosine
branch of find_nearest_proto reports no match. -/
theorem nearest_cosine_none_of_lt (s : VoxelCloud) (proto : Vec) (octave : ℤ)
    (θ : ℚ) (tol : Option ℚ) (h : (octSims s proto octave).foldl max 0 < θ) :
    findNearestProto s proto octave θ none tol = none := by
  unfold findNearestProto
  simp only
  rw [if_neg]
  rw [cosine_best_fst]
  exact not_le.mpr h

/-- When the maximum same-octave similarity reaches a positive threshold, the cosine
branch of find_nearest_proto reports a match. -/
theorem nearest_cosine_some_of_ge (s : VoxelCloud) (proto : Vec) (octave : ℤ)
    (θ : ℚ) (tol : Option ℚ) (hθ : 0 < θ)
    (h : θ ≤ (octSims s proto octave).foldl max 0) :
    ∃ i, findNearestProto s proto octave θ none tol = some i := by
  have hfst : (s.entries.enum.foldl (cosineStep proto octave) (0, none)).1 =
      (octSims s proto octave).foldl max 0 := cosine_best_fst s proto octave
  have hpos : 0 < (s.entries.enum.foldl (cosineStep proto octave) (0, none)).1 := by
    rw [hfst]; exact lt_of_lt_of_le hθ h
  have hsome := cosineFold_isSome proto octave s.entries.enum 0 none
    (fun h0 => absurd h0 (lt_irrefl 0)) hpos
  rcases Option.isSome_iff_exists.mp hsome with ⟨i, hi⟩
  refine ⟨i, ?_⟩
  unfold findNearestProto
  simp only
  rw [if_pos (by rw [hfst]; exact h)]
  exact hi

/-- When the cosine branch of find_nearest_proto reports no match at a positive
threshold, every same-octave similarity is strictly below the threshold. -/
theorem nearest_none_sims_lt (s : VoxelCloud) (proto : Vec) (octave : ℤ) (θ : ℚ)
    (tol : Option ℚ) (hθ : 0 < θ)
    (hnone : findNearestProto s proto octave θ none tol = none) :
    ∀ x ∈ octSims s proto octave, x < θ := by
  intro x hx
  by_cases hge : θ ≤ (octSims s proto octave).foldl max 0
  · rcases nearest_cosine_some_of_ge s proto octave θ tol hθ hge with ⟨i, hi⟩
    rw [hnone] at hi
    cases hi
  · exact lt_of_le_of_lt (le_foldl_max_of_mem _ hx 0) (not_le.mp hge)

/-- The merge branch of add_or_strengthen_proto in explicit form. -/
theorem add_merge_parts (C : Collaborators) (s : VoxelCloud) (proto freq : Vec)
    (octave : ℤ) (unit : Option String) (modality : String) (θ : ℚ)
    (coords : Option Coord) (tol : Option ℚ) (i : ℕ) (e : ProtoIdentityEntry)
    (hfind : findNearestProto s proto octave θ coords tol = some i)
    (he : s.entries[i]? = some e) :
    addOrStrengthenProto C s proto freq octave unit modality θ coords tol =
      ({ s with entries := s.entries.set i (strengthenEntry e proto) },
        some (i, false)) := by
  unfold addOrStrengthenProto
  rw [hfind]
  dsimp only
  rw [he]

/-- The create branch of add_or_strengthen_proto: the entry is appended in every
sub-branch (including the one raising AttributeError), a normal return reports
(fresh offset, is_new), and the call returns normally whenever the new record carries
no coordinates. -/
theorem add_create_parts (C : Collaborators) (s : VoxelCloud) (proto freq : Vec)
    (octave : ℤ) (unit : Option String) (modality : String) (θ : ℚ)
    (coords : Option Coord) (tol : Option ℚ)
    (hfind : findNearestProto s proto octave θ coords tol = none) :
    (addOrStrengthenProto C s proto freq octave unit modality θ coords tol).1.entries
      = s.entries ++ [createdEntry C s proto freq modality octave unit coords] ∧
    (∀ i b, (addOrStrengthenProto C s proto freq octave unit modality θ coords
        tol).2 = some (i, b) → i = s.entries.length ∧ b = true) ∧
    ((createdEntry C s proto freq modality octave unit coords).wavecube_coords =
        none →
      (addOrStrengthenProto C s proto freq octave unit modality θ coords tol).2 =
        some (s.entries.length, true)) := by
  unfold addOrStrengthenProto
  rw [hfind]
  dsimp only
  split
  · refine ⟨rfl, fun i b h => ?_, fun _ => rfl⟩
    simp only [Option.some.injEq, Prod.mk.injEq] at h
    exact ⟨h.1.symm, h.2.symm⟩
  · rename_i c hc
    split
    · exact ⟨rfl, fun i b h => absurd h (by simp),
        fun hnone => absurd (hc ▸ hnone) (by simp)⟩
    · refine ⟨rfl, fun i b h => ?_, fun hnone => absurd (hc ▸ hnone) (by simp)⟩
      simp only [Option.some.injEq, Prod.mk.injEq] at h
      exact ⟨h.1.symm, h.2.symm⟩

/-- The octave of the record the create branch assembles is the octave argument. -/
theorem createdEntry_octave (C : Collaborators) (s : VoxelCloud) (proto freq : Vec)
    (modality : String) (octave : ℤ) (unit : Option String)
    (coords : Option Coord) :
    (createdEntry C s proto freq modality octave unit coords).octave = octave := by
  unfold createdEntry createNewEntry
  cases coords <;> rfl

/-- The fingerprint of the record the create branch assembles is the incoming
fingerprint, and its resonance is 1. -/
theorem createdEntry_proto_res (C : Collaborators) (s : VoxelCloud)
    (proto freq : Vec) (modality : String) (octave : ℤ) (unit : Option String)
    (coords : Option Coord) :
    (createdEntry C s proto freq modality octave unit coords).proto_identity =
        proto ∧
    (createdEntry C s proto freq modality octave unit coords).resonance_strength =
        1 := by
  unfold createdEntry createNewEntry
  cases coords <;> exact ⟨rfl, rfl⟩

/-- A normal return of add_or_strengthen_proto points at a record carrying the
requested octave. -/
theorem add_result_octave (C : Collaborators) (s : VoxelCloud) (proto freq : Vec)
    (octave : ℤ) (unit : Option String) (modality : String) (θ : ℚ)
    (coords : Option Coord) (tol : Option ℚ) (i : ℕ) (b : Bool)
    (hr : (addOrStrengthenProto C s proto freq octave unit modality θ coords
      tol).2 = some (i, b)) :
    ∃ e, (addOrStrengthenProto C s proto freq octave unit modality θ coords
      tol).1.entries[i]? = some e ∧ e.octave = octave := by
  cases hfind : findNearestProto s proto octave θ coords tol with
  | some i0 =>
    cases he : s.entries[i0]? with
    | none =>
      have : (addOrStrengthenProto C s proto freq octave unit modality θ coords
          tol).2 = none := by
        unfold addOrStrengthenProto
        rw [hfind]
        dsimp only
        rw [he]
      rw [this] at hr
      cases hr
    | some e0 =>
      have heq := add_merge_parts C s proto freq octave unit modality θ coords tol
        i0 e0 hfind he
      rw [heq] at hr ⊢
      simp only [Option.some.injEq, Prod.mk.injEq] at hr
      have hii : i = i0 := hr.1.symm
      subst hii
      have hlt : i < s.entries.length := (List.getElem?_eq_some_iff.mp he).1
      refine ⟨strengthenEntry e0 proto, ?_, ?_⟩
      · simpa using List.getElem?_set_self (l := s.entries) (a := strengthenEntry e0 proto) hlt
      · have := findNearest_octave s proto octave θ coords tol i hfind
        rcases this with ⟨e1, he1, ho1⟩
        rw [he] at he1
        cases he1
        exact ho1
  | none =>
    have hparts := add_create_parts C s proto freq octave unit modality θ coords
      tol hfind
    rcases hparts.2.1 i b hr with ⟨hi, _⟩
    subst hi
    rw [hparts.1]
    exact ⟨createdEntry C s proto freq modality octave unit coords,
      List.getElem?_concat_length _ _,
      createdEntry_octave C s proto freq modality octave unit coords⟩

/-- add_or_strengthen_proto never changes the octave tag of a record already in the
store (the merge branch rewrites only fingerprint and resonance; the create branch
only appends). -/
theorem add_preserves_octave (C : Collaborators) (s : VoxelCloud) (proto freq : Vec)
    (octave : ℤ) (unit : Option String) (modality : String) (θ : ℚ)
    (coords : Option Coord) (tol : Option ℚ) (j : ℕ) (e : ProtoIdentityEntry)
    (hj : s.entries[j]? = some e) :
    ∃ e2, (addOrStrengthenProto C s proto freq octave unit modality θ coords
      tol).1.entries[j]? = some e2 ∧ e2.octave = e.octave := by
  cases hfind : findNearestProto s proto octave θ coords tol with
  | none =>
    rw [(add_create_parts C s proto freq octave unit modality θ coords tol
      hfind).1]
    have hlt : j < s.entries.length := (List.getElem?_eq_some_iff.mp hj).1
    rw [List.getElem?_append_left hlt]
    exact ⟨e, hj, rfl⟩
  | some i =>
    cases he : s.entries[i]? with
    | none =>
      have : (addOrStrengthenProto C s proto freq octave unit modality θ coords
          tol).1 = s := by
        unfold addOrStrengthenProto
        rw [hfind]
        dsimp only
        rw [he]
      rw [this]
      exact ⟨e, hj, rfl⟩
    | some e0 =>
      rw [add_merge_parts C s proto freq octave unit modality θ coords tol i e0
        hfind he]
      dsimp only
      by_cases hij : j = i
      · subst hij
        rw [hj] at he
        cases he
        have hlt : j < s.entries.length := (List.getElem?_eq_some_iff.mp hj).1
        refine ⟨strengthenEntry e proto, ?_, rfl⟩
        simpa using List.getElem?_set_self (l := s.entries)
          (a := strengthenEntry e proto) hlt
      · rw [List.getElem?_set_ne (fun h => hij h.symm)]
        exact ⟨e, hj, rfl⟩

/-- C4: every matching comparison is restricted to records of the incoming octave
(both branches of find_nearest_proto), and two adds with different octave tags always
end in two distinct records, whatever the store state — the two returned offsets
differ and carry the two octaves. -/
theorem c4_octave_isolation :
    (∀ (s : VoxelCloud) (proto : Vec) (octave : ℤ) (θ : ℚ) (coords : Option Coord)
        (tol : Option ℚ) (i : ℕ),
      findNearestProto s proto octave θ coords tol = some i →
        ∃ e, s.entries[i]? = some e ∧ e.octave = octave) ∧
    (∀ (C : Collaborators) (s : VoxelCloud) (v1 f1 v2 f2 : Vec) (o1 o2 : ℤ)
        (u1 u2 : Option String) (m1 m2 : String) (θ1 θ2 : ℚ)
        (c1 c2 : Option Coord) (t1 t2 : Option ℚ) (i1 i2 : ℕ) (b1 b2 : Bool),
      o1 ≠ o2 →
      (addOrStrengthenProto C s v1 f1 o1 u1 m1 θ1 c1 t1).2 = some (i1, b1) →
      (addOrStrengthenProto C (addOrStrengthenProto C s v1 f1 o1 u1 m1 θ1 c1 t1).1
          v2 f2 o2 u2 m2 θ2 c2 t2).2 = some (i2, b2) →
      i1 ≠ i2 ∧
      (∃ e, (addOrStrengthenProto C (addOrStrengthenProto C s v1 f1 o1 u1 m1 θ1 c1
          t1).1 v2 f2 o2 u2 m2 θ2 c2 t2).1.entries[i1]? = some e ∧
        e.octave = o1) ∧
      (∃ e, (addOrStrengthenProto C (addOrStrengthenProto C s v1 f1 o1 u1 m1 θ1 c1
          t1).1 v2 f2 o2 u2 m2 θ2 c2 t2).1.entries[i2]? = some e ∧
        e.octave = o2)) := by
  constructor
  · exact fun s proto octave θ coords tol i hi =>
      findNearest_octave s proto octave θ coords tol i hi
  · intro C s v1 f1 v2 f2 o1 o2 u1 u2 m1 m2 θ1 θ2 c1 c2 t1 t2 i1 i2 b1 b2
      ho h1 h2
    rcases add_result_octave C s v1 f1 o1 u1 m1 θ1 c1 t1 i1 b1 h1 with
      ⟨e1, he1, ho1⟩
    rcases add_preserves_octave C _ v2 f2 o2 u2 m2 θ2 c2 t2 i1 e1 he1 with
      ⟨e1b, he1b, ho1b⟩
    rcases add_result_octave C _ v2 f2 o2 u2 m2 θ2 c2 t2 i2 b2 h2 with
      ⟨e2, he2, ho2⟩
    have hne : i1 ≠ i2 := by
      intro hcontra
      rw [hcontra, he2] at he1b
      cases he1b
      refine ho ?_
      rw [← ho1, ← ho1b]
      exact ho2
    exact ⟨hne, ⟨e1b, he1b, by rw [ho1b, ho1]⟩, ⟨e2, he2, ho2⟩⟩

/-- Witness for C4: adding the fingerprint [1] at octave 0 and then again at
octave 1, from a fresh store, creates two distinct records tagged 0 and 1. -/
theorem c4_octave_isolation_witness :
    (addOrStrengthenProto trivialCollaborators (VoxelCloud.fresh 512 512 128) [1]
      [1] 0 none "text" (9/10) none (some 1)).2 = some (0, true) ∧
    (addOrStrengthenProto trivialCollaborators (addOrStrengthenProto
      trivialCollaborators (VoxelCloud.fresh 512 512 128) [1] [1] 0 none "text"
      (9/10) none (some 1)).1 [1] [1] 1 none "text" (9/10) none (some 1)).2 =
      some (1, true) ∧
    (0 ≠ 1 ∧
      (∃ e, (addOrStrengthenProto trivialCollaborators (addOrStrengthenProto
        trivialCollaborators (VoxelCloud.fresh 512 512 128) [1] [1] 0 none "text"
        (9/10) none (some 1)).1 [1] [1] 1 none "text" (9/10) none
        (some 1)).1.entries[0]? = some e ∧ e.octave = 0) ∧
      (∃ e, (addOrStrengthenProto trivialCollaborators (addOrStrengthenProto
        trivialCollaborators (VoxelCloud.fresh 512 512 128) [1] [1] 0 none "text"
        (9/10) none (some 1)).1 [1] [1] 1 none "text" (9/10) none
        (some 1)).1.entries[1]? = some e ∧ e.octave = 1)) := by
  have hadd1 : (addOrStrengthenProto trivialCollaborators
      (VoxelCloud.fresh 512 512 128) [1] [1] 0 none "text" (9/10) none
      (some 1)).2 = some (0, true) := by
    with_unfolding_all decide
  have hadd2 : (addOrStrengthenProto trivialCollaborators (addOrStrengthenProto
      trivialCollaborators (VoxelCloud.fresh 512 512 128) [1] [1] 0 none "text"
      (9/10) none (some 1)).1 [1] [1] 1 none "text" (9/10) none (some 1)).2 =
      some (1, true) := by
    with_unfolding_all decide
  exact ⟨hadd1, hadd2,
    c4_octave_isolation.2 trivialCollaborators (VoxelCloud.fresh 512 512 128)
      [1] [1] [1] [1] 0 1 none none "text" "text" (9/10) (9/10) none none
      (some 1) (some 1) 0 1 true true (by decide) hadd1 hadd2⟩

/-- C5: on the cosine path, the threshold comparison is inclusive — a best same-octave
similarity exactly equal to the threshold merges into the existing record (no new
record), while a best similarity strictly below creates a new record. -/
theorem c5_threshold_boundary (C : Collaborators) (s : VoxelCloud)
    (proto freq : Vec) (octave : ℤ) (unit : Option String) (modality : String)
    (θ : ℚ) (tol : Option ℚ) (hθ : 0 < θ)
    (hderiv : C.triplanarOf freq modality octave = none) :
    ((octSims s proto octave).foldl max 0 = θ →
      ∃ i, (addOrStrengthenProto C s proto freq octave unit modality θ none
          tol).2 = some (i, false) ∧
        (addOrStrengthenProto C s proto freq octave unit modality θ none
          tol).1.entries.length = s.entries.length) ∧
    ((octSims s proto octave).foldl max 0 < θ →
      (addOrStrengthenProto C s proto freq octave unit modality θ none tol).2 =
        some (s.entries.length, true) ∧
      (addOrStrengthenProto C s proto freq octave unit modality θ none
        tol).1.entries.length = s.entries.length + 1) := by
  constructor
  · intro hmax
    rcases nearest_cosine_some_of_ge s proto octave θ tol hθ (le_of_eq hmax.symm)
      with ⟨i, hfind⟩
    rcases findNearest_octave s proto octave θ none tol i hfind with ⟨e, he, _⟩
    have heq := add_merge_parts C s proto freq octave unit modality θ none tol i e
      hfind he
    rw [heq]
    exact ⟨i, rfl, List.length_set s.entries i _⟩
  · intro hmax
    have hfind := nearest_cosine_none_of_lt s proto octave θ tol hmax
    have hparts := add_create_parts C s proto freq octave unit modality θ none tol
      hfind
    have hcd : (createdEntry C s proto freq modality octave unit
        none).wavecube_coords = none := hderiv
    refine ⟨hparts.2.2 hcd, ?_⟩
    rw [hparts.1]
    simp

/-- The norm model is exact on one-component buffers: the norm of [x] for
nonnegative x is x. -/
theorem vnorm_single (x : ℚ) (hx : 0 ≤ x) : vnorm [x] = x := by
  have hd : dotV [x] [x] = x * x := by simp [dotV]
  unfold vnorm sumSq
  rw [hd, Rat.sqrt_eq, abs_of_nonneg hx]

/-- Closed form of the remapped similarity on one-component buffers. -/
theorem protoSim_single (a x : ℚ) (ha : 0 ≤ a) (hx : 0 ≤ x) :
    computeProtoSimilarity [a] [x] =
      (a * x / ((a + eps8) * (x + eps8)) + 1) / 2 := by
  have hd : dotV [a] [x] = a * x := by simp [dotV]
  unfold computeProtoSimilarity
  rw [vnorm_single a ha, vnorm_single x hx, hd]

/-- The boundary fingerprint hits the default threshold exactly. -/
theorem boundary_sim_eq : computeProtoSimilarity [1] [boundaryQ] = 9/10 := by
  rw [protoSim_single 1 boundaryQ (by norm_num) (by norm_num [boundaryQ])]
  unfold boundaryQ eps8
  norm_num

/-- Witness for C5: a one-component fingerprint built so that the similarity of [1]
against it is exactly 9/10 merges at the default threshold; on an empty store the
best similarity 0 is strictly below the threshold and a record is created. -/
theorem c5_threshold_boundary_witness :
    (∃ i, (addOrStrengthenProto trivialCollaborators boundaryStore [1] [1] 0 none
        "text" (9/10) none (some 1)).2 = some (i, false) ∧
      (addOrStrengthenProto trivialCollaborators boundaryStore [1] [1] 0 none
        "text" (9/10) none (some 1)).1.entries.length =
        boundaryStore.entries.length) ∧
    ((addOrStrengthenProto trivialCollaborators (VoxelCloud.fresh 512 512 128) [1]
        [1] 0 none "text" (9/10) none (some 1)).2 =
      some ((VoxelCloud.fresh 512 512 128).entries.length, true) ∧
      (addOrStrengthenProto trivialCollaborators (VoxelCloud.fresh 512 512 128) [1]
        [1] 0 none "text" (9/10) none (some 1)).1.entries.length =
        (VoxelCloud.fresh 512 512 128).entries.length + 1) := by
  have hmax : (octSims boundaryStore [1] 0).foldl max 0 = 9/10 := by
    have hlist : octSims boundaryStore [1] 0 =
        [computeProtoSimilarity [1] [boundaryQ]] := rfl
    rw [hlist, List.foldl_cons, List.foldl_nil, boundary_sim_eq,
      max_eq_right (by norm_num)]
  have hmax0 : (octSims (VoxelCloud.fresh 512 512 128) [1] 0).foldl max 0 <
      9/10 := by
    have hlist : octSims (VoxelCloud.fresh 512 512 128) [1] 0 = [] := rfl
    rw [hlist]
    norm_num
  exact ⟨(c5_threshold_boundary trivialCollaborators boundaryStore [1] [1] 0 none
      "text" (9/10) (some 1) (by norm_num) rfl).1 hmax,
    (c5_threshold_boundary trivialCollaborators (VoxelCloud.fresh 512 512 128) [1]
      [1] 0 none "text" (9/10) (some 1) (by norm_num) rfl).2 hmax0⟩

/-- C2 counterexample: three cosine-path adds at the default threshold 0.90 leave the
store with two same-octave records whose similarity is at least the threshold — the
third add merges into the first record and drags its fingerprint within threshold of
the second, violating the claimed invariant with no coordinate path involved. -/
theorem c2_invariant_counterexample :
    driftStore.entries.map (fun e => e.proto_identity) =
      [[56/65, 32/65], [1, 0]] ∧
    driftStore.entries.map (fun e => e.octave) = [0, 0] ∧
    computeProtoSimilarity [56/65, 32/65] [1, 0] ≥ 9/10 := by
  with_unfolding_all decide

/-- C2 amended: on the cosine path the invariant holds at creation time — a record is
created only when its similarity to every pre-existing same-octave record is strictly
below the threshold.  (The full store invariant fails across merges, as the
counterexample shows.) -/
theorem c2_creation_time_separation (C : Collaborators) (s : VoxelCloud)
    (proto freq : Vec) (octave : ℤ) (unit : Option String) (modality : String)
    (θ : ℚ) (tol : Option ℚ) (i : ℕ) (hθ : 0 < θ)
    (hc : (addOrStrengthenProto C s proto freq octave unit modality θ none
      tol).2 = some (i, true)) :
    ∀ e ∈ s.entries, e.octave = octave →
      computeProtoSimilarity proto e.proto_identity < θ := by
  cases hfind : findNearestProto s proto octave θ none tol with
  | some i0 =>
    cases he : s.entries[i0]? with
    | none =>
      have : (addOrStrengthenProto C s proto freq octave unit modality θ none
          tol).2 = none := by
        unfold addOrStrengthenProto
        rw [hfind]
        dsimp only
        rw [he]
      rw [this] at hc
      cases hc
    | some e0 =>
      rw [add_merge_parts C s proto freq octave unit modality θ none tol i0 e0
        hfind he] at hc
      simp only [Option.some.injEq, Prod.mk.injEq] at hc
      cases hc.2
  | none =>
    intro e he hoc
    refine nearest_none_sims_lt s proto octave θ tol hθ hfind _ ?_
    unfold octSims
    exact List.mem_map_of_mem _ (List.mem_filter.mpr ⟨he, by simp [hoc]⟩)

/-- Witness for C2: adding [1, 0] to a store holding the record [4/5, 3/5]
(similarity below 0.9) creates a record, and the creation-time bound applies. -/
theorem c2_creation_time_separation_witness :
    (addOrStrengthenProto trivialCollaborators aEntryStore [1, 0] [1, 0] 0 none
      "text" (9/10) none (some 1)).2 = some (1, true) ∧
    ∀ e ∈ aEntryStore.entries, e.octave = 0 →
      computeProtoSimilarity [1, 0] e.proto_identity < 9/10 := by
  have hc : (addOrStrengthenProto trivialCollaborators aEntryStore [1, 0] [1, 0] 0
      none "text" (9/10) none (some 1)).2 = some (1, true) := by
    with_unfolding_all decide
  exact ⟨hc, c2_creation_time_separation trivialCollaborators aEntryStore [1, 0]
    [1, 0] 0 none "text" (9/10) (some 1) 1 (by norm_num) hc⟩

theorem dotV_self_nonneg (v : Vec) : 0 ≤ dotV v v := by
  unfold dotV
  induction v with
  | nil => simp
  | cons x xs ih =>
    rw [List.zipWith_cons_cons, List.sum_cons]
    exact add_nonneg (mul_self_nonneg x) ih

theorem vnorm_nonneg (v : Vec) : 0 ≤ vnorm v := Rat.sqrt_nonneg _

/-- The remapped self-similarity of any fingerprint is at least one half (the raw
epsilon-guarded cosine of a buffer with itself is nonnegative). -/
theorem half_le_selfSim (v : Vec) : 1/2 ≤ computeProtoSimilarity v v := by
  unfold computeProtoSimilarity
  have hnum : 0 ≤ dotV v v := dotV_self_nonneg v
  have hpos : 0 < vnorm v + eps8 := by
    have := vnorm_nonneg v
    unfold eps8
    linarith
  have hraw : 0 ≤ dotV v v / ((vnorm v + eps8) * (vnorm v + eps8)) :=
    div_nonneg hnum (le_of_lt (mul_pos hpos hpos))
  dsimp only
  linarith

theorem vscale_one (v : Vec) : vscale 1 v = v := by
  simp [vscale]

theorem vaddV_vscale_same (a b : ℚ) (v : Vec) :
    vaddV (vscale a v) (vscale b v) = vscale (a + b) v := by
  induction v with
  | nil => rfl
  | cons x xs ih =>
    unfold vaddV vscale at ih ⊢
    simp only [List.map_cons, List.zipWith_cons_cons, List.cons.injEq]
    exact ⟨by ring, ih⟩

theorem vscale_vaddV (c : ℚ) (a b : Vec) :
    vscale c (vaddV a b) = vaddV (vscale c a) (vscale c b) := by
  induction a generalizing b with
  | nil => rfl
  | cons x xs ih =>
    cases b with
    | nil => rfl
    | cons y ys =>
      unfold vaddV vscale at ih ⊢
      simp only [List.map_cons, List.zipWith_cons_cons, List.cons.injEq]
      exact ⟨by ring, ih ys⟩

theorem vscale_vscale (c d : ℚ) (v : Vec) :
    vscale c (vscale d v) = vscale (c * d) v := by
  unfold vscale
  rw [List.map_map]
  congr 1
  funext x
  simp [mul_assoc]

theorem vaddV_assoc (a b c : Vec) :
    vaddV (vaddV a b) c = vaddV a (vaddV b c) := by
  induction a generalizing b c with
  | nil => rfl
  | cons x xs ih =>
    cases b with
    | nil => rfl
    | cons y ys =>
      cases c with
      | nil => rfl
      | cons z zs =>
        unfold vaddV at ih ⊢
        simp only [List.zipWith_cons_cons, List.cons.injEq]
        exact ⟨add_assoc x y z, ih ys zs⟩

theorem vscale_length (c : ℚ) (v : Vec) : (vscale c v).length = v.length :=
  List.length_map v _

theorem vaddV_length (a b : Vec) :
    (vaddV a b).length = min a.length b.length := by
  unfold vaddV
  exact List.length_zipWith _ a b

theorem vaddV_zero_right (v : Vec) : vaddV v (vzero v.length) = v := by
  induction v with
  | nil => rfl
  | cons x xs ih =>
    unfold vaddV vzero at ih ⊢
    rw [List.length_cons, List.replicate_succ, List.zipWith_cons_cons, add_zero]
    exact congrArg (x :: ·) ih

/-- The merge branch keeps the fingerprint shape. -/
theorem strengthen_length (e : ProtoIdentityEntry) (u : Vec)
    (hu : u.length = e.proto_identity.length) :
    (strengthenEntry e u).proto_identity.length = e.proto_identity.length := by
  unfold strengthenEntry
  dsimp only
  rw [vaddV_length, vscale_length, vscale_length, hu, min_self]

/-- Merging a fingerprint equal to the stored one leaves the fingerprint
unchanged. -/
theorem strengthen_self (e : ProtoIdentityEntry) (v : Vec)
    (he : e.proto_identity = v) : (strengthenEntry e v).proto_identity = v := by
  unfold strengthenEntry
  dsimp only
  rw [he, vaddV_vscale_same, sub_add_cancel, vscale_one]

/-- One merge step in multiplied (division-free) form: resonance-after times the new
fingerprint equals resonance-before times the old fingerprint plus the incoming
one. -/
theorem strengthen_linear (e : ProtoIdentityEntry) (u : Vec)
    (hu : u.length = e.proto_identity.length) :
    vscale ((e.resonance_strength : ℚ) + 1) (strengthenEntry e u).proto_identity =
      vaddV (vscale ((e.resonance_strength : ℚ)) e.proto_identity) u := by
  unfold strengthenEntry
  dsimp only
  rw [vscale_vaddV, vscale_vscale, vscale_vscale]
  have hr : ((e.resonance_strength : ℚ) + 1) ≠ 0 := by positivity
  have hcast : ((e.resonance_strength + 1 : ℕ) : ℚ) =
      (e.resonance_strength : ℚ) + 1 := by push_cast; ring
  rw [hcast]
  have h1 : ((e.resonance_strength : ℚ) + 1) *
      (1 - 1 / ((e.resonance_strength : ℚ) + 1)) = (e.resonance_strength : ℚ) := by
    field_simp
  have h2 : ((e.resonance_strength : ℚ) + 1) *
      (1 / ((e.resonance_strength : ℚ) + 1)) = 1 := by
    field_simp
  rw [h1, h2, vscale_one]

/-- Folding merges over a record: the resonance counts the merges, the shape is kept,
and in multiplied form the fingerprint is the resonance-weighted average of the
initial fingerprint and every merged buffer — the running mean. -/
theorem strengthenFold (us : List Vec) (e : ProtoIdentityEntry)
    (hus : ∀ u ∈ us, u.length = e.proto_identity.length) :
    (us.foldl strengthenEntry e).resonance_strength =
      e.resonance_strength + us.length ∧
    (us.foldl strengthenEntry e).proto_identity.length =
      e.proto_identity.length ∧
    vscale (((e.resonance_strength + us.length : ℕ) : ℚ))
        (us.foldl strengthenEntry e).proto_identity =
      vaddV (vscale ((e.resonance_strength : ℚ)) e.proto_identity)
        (vsum e.proto_identity.length us) := by
  induction us generalizing e with
  | nil =>
    refine ⟨rfl, rfl, ?_⟩
    have hlen : (vscale ((e.resonance_strength : ℚ)) e.proto_identity).length =
        e.proto_identity.length := vscale_length _ _
    calc vscale (((e.resonance_strength + 0 : ℕ) : ℚ)) e.proto_identity
        = vscale ((e.resonance_strength : ℚ)) e.proto_identity := by
          norm_num
      _ = vaddV (vscale ((e.resonance_strength : ℚ)) e.proto_identity)
          (vzero e.proto_identity.length) := by
          rw [← hlen, vaddV_zero_right]
      _ = vaddV (vscale ((e.resonance_strength : ℚ)) e.proto_identity)
          (vsum e.proto_identity.length []) := rfl
  | cons u rest ih =>
    have hu : u.length = e.proto_identity.length := hus u (List.mem_cons_self u rest)
    have hlen : (strengthenEntry e u).proto_identity.length =
        e.proto_identity.length := strengthen_length e u hu
    have hus2 : ∀ u2 ∈ rest, u2.length =
        (strengthenEntry e u).proto_identity.length := by
      intro u2 h2
      rw [hlen]
      exact hus u2 (List.mem_cons_of_mem u h2)
    have hres : (strengthenEntry e u).resonance_strength =
        e.resonance_strength + 1 := rfl
    rcases ih (strengthenEntry e u) hus2 with ⟨ihres, ihlen, ihmain⟩
    refine ⟨?_, ?_, ?_⟩
    · rw [List.foldl_cons, ihres, hres, List.length_cons]
      omega
    · rw [List.foldl_cons, ihlen, hlen]
    · rw [List.foldl_cons]
      have hcast : ((e.resonance_strength + (u :: rest).length : ℕ) : ℚ) =
          (((strengthenEntry e u).resonance_strength + rest.length : ℕ) : ℚ) := by
        rw [hres, List.length_cons]
        push_cast
        ring
      rw [hcast, ihmain]
      have hsl : vscale (((strengthenEntry e u).resonance_strength : ℚ))
          (strengthenEntry e u).proto_identity =
          vaddV (vscale ((e.resonance_strength : ℚ)) e.proto_identity) u := by
        have hcast2 : (((strengthenEntry e u).resonance_strength : ℕ) : ℚ) =
            (e.resonance_strength : ℚ) + 1 := by
          rw [hres]; push_cast; ring
        rw [hcast2]
        exact strengthen_linear e u hu
      rw [hsl, hlen, vaddV_assoc]
      rfl

/-- The entry state after N identical cosine-path adds from a fresh store: exactly
one record, fingerprint the added buffer, resonance N. -/
theorem addN_state (C : Collaborators) (w h d : ℕ) (v f : Vec) (oct : ℤ)
    (hself : 9/10 ≤ computeProtoSimilarity v v) :
    ∀ N, 1 ≤ N →
      ∃ e2, (addNTimes C (VoxelCloud.fresh w h d) v f oct N).entries = [e2] ∧
        e2.proto_identity = v ∧ e2.resonance_strength = N ∧ e2.octave = oct := by
  intro N
  induction N with
  | zero => intro h0; cases h0
  | succ n ihn =>
    intro _
    by_cases hn : 1 ≤ n
    · rcases ihn hn with ⟨e2, hent, hproto, hres, hoct⟩
      set sN := addNTimes C (VoxelCloud.fresh w h d) v f oct n with hsN
      have hsims : octSims sN v oct = [computeProtoSimilarity v v] := by
        unfold octSims
        rw [hent]
        simp [hoct, hproto]
      have hmax : (octSims sN v oct).foldl max 0 = computeProtoSimilarity v v := by
        rw [hsims, List.foldl_cons, List.foldl_nil]
        exact max_eq_right (le_trans (by norm_num) (half_le_selfSim v))
      rcases nearest_cosine_some_of_ge sN v oct (9/10) (some 1) (by norm_num)
        (by rw [hmax]; exact hself) with ⟨i, hfind⟩
      rcases findNearest_octave sN v oct (9/10) none (some 1) i hfind with
        ⟨e3, he3, _⟩
      have hi0 : i = 0 := by
        have hlt : i < sN.entries.length := (List.getElem?_eq_some_iff.mp he3).1
        rw [hent] at hlt
        simpa using Nat.lt_one_iff.mp (by simpa using hlt)
      subst hi0
      have he3v : e3 = e2 := by
        rw [hent] at he3
        exact (by simpa using he3 : e2 = e3).symm
      subst he3v
      have heq := add_merge_parts C sN v f oct none "text" (9/10) none (some 1) 0
        e3 hfind he3
      have hstore : addNTimes C (VoxelCloud.fresh w h d) v f oct (n + 1) =
          (addOrStrengthenProto C sN v f oct none "text" (9/10) none
            (some 1)).1 := rfl
      refine ⟨strengthenEntry e3 v, ?_, strengthen_self e3 v hproto, ?_, hoct⟩
      · rw [hstore, heq]
        dsimp only
        rw [hent]
        rfl
      · have h1 : (strengthenEntry e3 v).resonance_strength =
            e3.resonance_strength + 1 := rfl
        rw [h1, hres]
    · have hn0 : n = 0 := by omega
      subst hn0
      have hfind : findNearestProto (VoxelCloud.fresh w h d) v oct (9/10) none
          (some 1) = none := by
        apply nearest_cosine_none_of_lt
        have hnil : octSims (VoxelCloud.fresh w h d) v oct = [] := rfl
        rw [hnil]
        norm_num
      have hparts := add_create_parts C (VoxelCloud.fresh w h d) v f oct none
        "text" (9/10) none (some 1) hfind
      refine ⟨createdEntry C (VoxelCloud.fresh w h d) v f "text" oct none none,
        ?_,
        (createdEntry_proto_res C (VoxelCloud.fresh w h d) v f "text" oct none
          none).1,
        (createdEntry_proto_res C (VoxelCloud.fresh w h d) v f "text" oct none
          none).2,
        createdEntry_octave C (VoxelCloud.fresh w h d) v f "text" oct none none⟩
      have hstore : addNTimes C (VoxelCloud.fresh w h d) v f oct 1 =
          (addOrStrengthenProto C (VoxelCloud.fresh w h d) v f oct none "text"
            (9/10) none (some 1)).1 := rfl
      rw [hstore, hparts.1]
      rfl

/-- C1 (amended): the merge branch increments resonance by exactly one and replaces
the fingerprint by (1-w)·old + w·new with w = 1/resonance-after, so the stored
fingerprint is the running mean of every buffer ever merged (multiplied form);
N cosine-path adds of the same fingerprint v from a fresh store leave one record with
fingerprint v and resonance N — provided the self-similarity of v (epsilon-guarded,
remapped to [0,1]) reaches the threshold 0.9, which the all-zeros fingerprint
(self-similarity 0.5) does not. -/
theorem c1_merge_running_mean (C : Collaborators) (w h d : ℕ) (v f : Vec)
    (oct : ℤ) (e : ProtoIdentityEntry) (us : List Vec)
    (hus : ∀ u ∈ us, u.length = e.proto_identity.length) (N : ℕ) (hN : 1 ≤ N)
    (hself : 9/10 ≤ computeProtoSimilarity v v) :
    ((strengthenEntry e v).resonance_strength = e.resonance_strength + 1 ∧
      (strengthenEntry e v).proto_identity =
        vaddV (vscale (1 - 1/((e.resonance_strength : ℚ) + 1)) e.proto_identity)
          (vscale (1/((e.resonance_strength : ℚ) + 1)) v)) ∧
    (vscale (((e.resonance_strength + us.length : ℕ) : ℚ))
        (us.foldl strengthenEntry e).proto_identity =
      vaddV (vscale ((e.resonance_strength : ℚ)) e.proto_identity)
        (vsum e.proto_identity.length us) ∧
      (us.foldl strengthenEntry e).resonance_strength =
        e.resonance_strength + us.length) ∧
    (∃ e2, (addNTimes C (VoxelCloud.fresh w h d) v f oct N).entries = [e2] ∧
      e2.proto_identity = v ∧ e2.resonance_strength = N) := by
  refine ⟨⟨rfl, ?_⟩, ?_, ?_⟩
  · unfold strengthenEntry
    dsimp only
    have hcast : ((e.resonance_strength + 1 : ℕ) : ℚ) =
        (e.resonance_strength : ℚ) + 1 := by push_cast; ring
    rw [hcast]
  · rcases strengthenFold us e hus with ⟨hres, _, hmain⟩
    exact ⟨hmain, hres⟩
  · rcases addN_state C w h d v f oct hself N hN with ⟨e2, hent, hproto, hres, _⟩
    exact ⟨e2, hent, hproto, hres⟩

/-- Witness for C1 at concrete data: fingerprint [1] (self-similarity above 0.9),
two merged buffers [2] and [3] into the baseline record, and N = 2. -/
theorem c1_merge_running_mean_witness :
    (∀ u ∈ [[(2 : ℚ)], [(3 : ℚ)]], u.length = baseEntry.proto_identity.length) ∧
    (1 : ℕ) ≤ 2 ∧ 9/10 ≤ computeProtoSimilarity [1] [1] ∧
    (((strengthenEntry baseEntry [1]).resonance_strength =
        baseEntry.resonance_strength + 1 ∧
      (strengthenEntry baseEntry [1]).proto_identity =
        vaddV (vscale (1 - 1/((baseEntry.resonance_strength : ℚ) + 1))
          baseEntry.proto_identity)
          (vscale (1/((baseEntry.resonance_strength : ℚ) + 1)) [1])) ∧
    (vscale (((baseEntry.resonance_strength + ([[(2 : ℚ)], [(3 : ℚ)]] : List Vec).length : ℕ) : ℚ))
        (([[(2 : ℚ)], [(3 : ℚ)]] : List Vec).foldl strengthenEntry
          baseEntry).proto_identity =
      vaddV (vscale ((baseEntry.resonance_strength : ℚ)) baseEntry.proto_identity)
        (vsum baseEntry.proto_identity.length [[(2 : ℚ)], [(3 : ℚ)]]) ∧
      (([[(2 : ℚ)], [(3 : ℚ)]] : List Vec).foldl strengthenEntry
        baseEntry).resonance_strength =
        baseEntry.resonance_strength + ([[(2 : ℚ)], [(3 : ℚ)]] : List Vec).length) ∧
    (∃ e2, (addNTimes trivialCollaborators (VoxelCloud.fresh 512 512 128) [1] [1] 0
        2).entries = [e2] ∧
      e2.proto_identity = [1] ∧ e2.resonance_strength = 2)) := by
  have hlen : ∀ u ∈ [[(2 : ℚ)], [(3 : ℚ)]],
      u.length = baseEntry.proto_identity.length := by
    with_unfolding_all decide
  have hself : 9/10 ≤ computeProtoSimilarity [1] [1] := by
    rw [protoSim_single 1 1 (by norm_num) (by norm_num)]
    unfold eps8
    norm_num
  exact ⟨hlen, by norm_num, hself,
    c1_merge_running_mean trivialCollaborators 512 512 128 [1] [1] 0 baseEntry
      [[(2 : ℚ)], [(3 : ℚ)]] hlen 2 (by norm_num) hself⟩

/-- C1 counterexample to the claim as stated: adding the all-zeros fingerprint twice
does not merge — its self-similarity is 0.5, below the threshold — so the store ends
with two records instead of one record of resonance 2. -/
theorem c1_zero_duplicate_counterexample :
    (addPlain [0] (addPlain [0] (VoxelCloud.fresh 512 512 128))).entries.length =
      2 ∧
    computeProtoSimilarity [0] [0] = 1/2 := by
  with_unfolding_all decide

theorem sorted_take {α : Type} {r : α → α → Prop} {l : List α} (h : l.Pairwise r)
    (k : ℕ) : (l.take k).Pairwise r :=
  h.sublist (List.take_sublist k l)

theorem rel_of_take_drop {α : Type} {r : α → α → Prop} {l : List α}
    (h : l.Pairwise r) (k : ℕ) {x y : α} (hx : x ∈ l.take k) (hy : y ∈ l.drop k) :
    r x y := by
  have hsplit : l.take k ++ l.drop k = l := List.take_append_drop k l
  rw [← hsplit] at h
  exact (List.pairwise_append.mp h).2.2 x hx y hy

/-- Every element of the keyed list sorted by query_by_frequency_band has the
resonance of its offset as key and an offset drawn from the band filter. -/
theorem mem_band_keyed {s : VoxelCloud} {band : ℤ} {p : ℕ × ℕ}
    (hp : p ∈ (clusterByBand s band).map (fun i =>
      (((s.entries[i]?).map (fun e => e.resonance_strength)).getD 0, i))) :
    p.1 = resAt s p.2 ∧ p.2 ∈ clusterByBand s band := by
  rcases List.mem_map.mp hp with ⟨i, hi, hpi⟩
  subst hpi
  exact ⟨rfl, hi⟩

theorem mem_clusterByBand {s : VoxelCloud} {band : ℤ} {i : ℕ}
    (hi : i ∈ clusterByBand s band) :
    ∃ e, s.entries[i]? = some e ∧ e.frequency_band = some band := by
  unfold clusterByBand at hi
  rcases List.mem_map.mp hi with ⟨p, hpmem, hpi⟩
  rcases List.mem_filter.mp hpmem with ⟨hpenum, hP⟩
  subst hpi
  exact ⟨p.2, mem_enum_getElem hpenum, of_decide_eq_true hP⟩

/-- C8: query_by_frequency_band raises a descriptive typed error for a band outside
0, 1, 2 (never an empty result), and for a valid band returns only records whose band
tag equals the band, ordered by descending resonance, with at most max_results
elements. -/
theorem c8_frequency_band_query (s : VoxelCloud) (band : ℤ) (k : ℕ) :
    (¬(band = 0 ∨ band = 1 ∨ band = 2) →
      queryByFrequencyBand s band k =
        Except.error ("Invalid band " ++ toString band ++
          ". Must be 0 (LOW), 1 (MID), or 2 (HIGH)")) ∧
    ((band = 0 ∨ band = 1 ∨ band = 2) →
      ∃ l, queryByFrequencyBand s band k = Except.ok l ∧
        l.length ≤ k ∧
        (∀ i ∈ l, ∃ e, s.entries[i]? = some e ∧ e.frequency_band = some band) ∧
        l.Pairwise (fun i j => resAt s j ≤ resAt s i)) := by
  constructor
  · intro hb
    unfold queryByFrequencyBand
    rw [if_neg hb]
  · intro hb
    unfold queryByFrequencyBand
    rw [if_pos hb]
    set keyed := (clusterByBand s band).map (fun i =>
      (((s.entries[i]?).map (fun e => e.resonance_strength)).getD 0, i)) with hkeyed
    set sortedL := keyed.insertionSort descRank with hsorted
    refine ⟨_, rfl, ?_, ?_, ?_⟩
    · calc ((sortedL.take k).map (fun q => q.2)).length
          = (sortedL.take k).length := List.length_map _ _
        _ ≤ k := by
          rw [List.length_take]; exact min_le_left _ _
    · intro i hi
      rcases List.mem_map.mp hi with ⟨p, hpmem, hpi⟩
      have hps : p ∈ sortedL := List.mem_of_mem_take hpmem
      have hpk : p ∈ keyed := (List.perm_insertionSort descRank keyed).mem_iff.mp hps
      rcases mem_band_keyed hpk with ⟨_, h2⟩
      rw [← hpi]
      exact mem_clusterByBand h2
    · have hsort : sortedL.Pairwise descRank :=
        List.sorted_insertionSort descRank keyed
      have htake : (sortedL.take k).Pairwise descRank := sorted_take hsort k
      rw [List.pairwise_map]
      refine htake.imp_of_mem ?_
      intro p q hp hq hr
      have hpk : p ∈ keyed := (List.perm_insertionSort descRank keyed).mem_iff.mp
        (List.mem_of_mem_take hp)
      have hqk : q ∈ keyed := (List.perm_insertionSort descRank keyed).mem_iff.mp
        (List.mem_of_mem_take hq)
      have h1 := (mem_band_keyed hpk).1
      have h2 := (mem_band_keyed hqk).1
      rcases hr with h | h
      · rw [← h1, ← h2]; exact le_of_lt h
      · rw [← h1, ← h2, h.1]

/-- Witness for C8: an out-of-range band yields the typed error; on five records
pre-tagged with bands [0, 1, 1, 2, 1] and resonances [1, 2, 7, 1, 4], band 1 returns
exactly the three band-1 records, in descending resonance order (offsets 2, 4, 1). -/
theorem c8_frequency_band_query_witness :
    queryByFrequencyBand fiveBandStore 5 10 =
      Except.error "Invalid band 5. Must be 0 (LOW), 1 (MID), or 2 (HIGH)" ∧
    queryByFrequencyBand fiveBandStore 1 10 = Except.ok [2, 4, 1] ∧
    (∃ l, queryByFrequencyBand fiveBandStore 1 10 = Except.ok l ∧
      l.length ≤ 10 ∧
      (∀ i ∈ l, ∃ e, fiveBandStore.entries[i]? = some e ∧
        e.frequency_band = some 1) ∧
      l.Pairwise (fun i j => resAt fiveBandStore j ≤ resAt fiveBandStore i)) := by
  refine ⟨?_, ?_, (c8_frequency_band_query fiveBandStore 1 10).2 (by decide)⟩
  · with_unfolding_all rfl
  · with_unfolding_all rfl

theorem vsubV_self (v : Vec) : vsubV v v = vzero v.length := by
  unfold vsubV vzero
  induction v with
  | nil => rfl
  | cons x xs ih =>
    rw [List.length_cons, List.replicate_succ, List.zipWith_cons_cons, sub_self]
    exact congrArg (0 :: ·) ih

theorem dotV_vzero (n : ℕ) : dotV (vzero n) (vzero n) = 0 := by
  unfold dotV vzero
  induction n with
  | zero => rfl
  | succ m ihm =>
    rw [List.replicate_succ, List.zipWith_cons_cons, List.sum_cons, mul_zero,
      zero_add]
    exact ihm

theorem vnorm_sub_self (v : Vec) : vnorm (vsubV v v) = 0 := by
  unfold vnorm sumSq
  rw [vsubV_self, dotV_vzero]
  rw [show (0 : ℚ) = 0 * 0 by norm_num, Rat.sqrt_eq]
  norm_num

/-- Every element of the keyed list of query_by_proto_similarity pairs the score of
its offset with an in-range offset. -/
theorem mem_sim_keyed {s : VoxelCloud} {metric : String} {query : Vec}
    {p : ℚ × ℕ}
    (hp : p ∈ s.entries.enum.map
      (fun q => (simScore metric query q.2.proto_identity, q.1))) :
    p.1 = scoreAt s metric query p.2 ∧ p.2 < s.entries.length := by
  rcases List.mem_map.mp hp with ⟨q, hqmem, hqp⟩
  have hq := mem_enum_getElem hqmem
  subst hqp
  constructor
  · unfold scoreAt
    rw [hq]
  · exact (List.getElem?_eq_some_iff.mp hq).1

/-- Conversely, every in-range offset contributes its keyed pair. -/
theorem sim_keyed_mem {s : VoxelCloud} {metric : String} {query : Vec} {j : ℕ}
    (hj : j < s.entries.length) :
    (scoreAt s metric query j, j) ∈ s.entries.enum.map
      (fun q => (simScore metric query q.2.proto_identity, q.1)) := by
  have hq : s.entries[j]? = some (s.entries.get ⟨j, hj⟩) :=
    List.getElem?_eq_getElem hj
  refine List.mem_map.mpr ⟨(j, s.entries.get ⟨j, hj⟩), ?_, ?_⟩
  · exact List.mem_enum_iff_getElem?.mpr hq
  · unfold scoreAt
    rw [hq]

/-- C6 (amended): by_similarity returns at most k offsets, ordered descending by
score with ties broken by insertion order, dominating every omitted record; under the
L2 metric a record whose fingerprint equals the query attains the maximum score.
(Under the cosine metric an equal record can be beaten by a scaled copy — see the
counterexample.) -/
theorem c6_by_similarity (s : VoxelCloud) (query : Vec) (k : ℕ)
    (metric : String) :
    (queryByProtoSimilarity s query k metric).length ≤ k ∧
    (queryByProtoSimilarity s query k metric).Pairwise (fun i j =>
      scoreAt s metric query j < scoreAt s metric query i ∨
      (scoreAt s metric query i = scoreAt s metric query j ∧ i ≤ j)) ∧
    (∀ i ∈ queryByProtoSimilarity s query k metric, ∀ j < s.entries.length,
      j ∉ queryByProtoSimilarity s query k metric →
        scoreAt s metric query j ≤ scoreAt s metric query i) ∧
    (metric ≠ "cosine" → ∀ (i : ℕ) (e : ProtoIdentityEntry),
      s.entries[i]? = some e → e.proto_identity = query →
      ∀ j, scoreAt s metric query j ≤ scoreAt s metric query i) := by
  have hmaxL2 : metric ≠ "cosine" → ∀ (i : ℕ) (e : ProtoIdentityEntry),
      s.entries[i]? = some e → e.proto_identity = query →
      ∀ j, scoreAt s metric query j ≤ scoreAt s metric query i := by
    intro hm i e he hq j
    have heps : (0 : ℚ) < eps6 := by unfold eps6; norm_num
    have hi : scoreAt s metric query i = 1 / eps6 := by
      unfold scoreAt
      rw [he]
      dsimp only
      unfold simScore
      rw [if_neg hm, hq]
      rw [vnorm_sub_self, zero_add]
    rw [hi]
    unfold scoreAt
    cases hj : s.entries[j]? with
    | none => positivity
    | some ej =>
      dsimp only
      unfold simScore
      rw [if_neg hm]
      have hnn : 0 ≤ vnorm (vsubV query ej.proto_identity) := vnorm_nonneg _
      rw [div_le_div_iff₀ (by linarith) heps]
      nlinarith
  by_cases hempty : s.entries.length = 0
  · refine ⟨?_, ?_, ?_, hmaxL2⟩ <;>
      simp [queryByProtoSimilarity, hempty]
  · unfold queryByProtoSimilarity
    rw [if_neg hempty]
    set keyed := s.entries.enum.map
      (fun q => (simScore metric query q.2.proto_identity, q.1)) with hkeyed
    set sortedL := keyed.insertionSort descRank with hsortedL
    have hsort : sortedL.Pairwise descRank := List.sorted_insertionSort descRank keyed
    have hmemkeyed : ∀ p ∈ sortedL, p ∈ keyed := fun p hp =>
      (List.perm_insertionSort descRank keyed).mem_iff.mp hp
    refine ⟨?_, ?_, ?_, hmaxL2⟩
    · calc ((sortedL.take k).map (fun q => q.2)).length
          = (sortedL.take k).length := List.length_map _ _
        _ ≤ k := by rw [List.length_take]; exact min_le_left _ _
    · rw [List.pairwise_map]
      refine (sorted_take hsort k).imp_of_mem ?_
      intro p q hp hq hr
      have h1 := (mem_sim_keyed (hmemkeyed p (List.mem_of_mem_take hp))).1
      have h2 := (mem_sim_keyed (hmemkeyed q (List.mem_of_mem_take hq))).1
      rcases hr with h | h
      · exact Or.inl (by rw [← h1, ← h2]; exact h)
      · exact Or.inr ⟨by rw [← h1, ← h2, h.1], h.2⟩
    · intro i hi j hj hnj
      rcases List.mem_map.mp hi with ⟨p, hpmem, hpi⟩
      have hpk := hmemkeyed p (List.mem_of_mem_take hpmem)
      have hpchar := mem_sim_keyed hpk
      have hjk : (scoreAt s metric query j, j) ∈ keyed := sim_keyed_mem hj
      have hjs : (scoreAt s metric query j, j) ∈ sortedL :=
        (List.perm_insertionSort descRank keyed).mem_iff.mpr hjk
      rw [← List.take_append_drop k sortedL] at hjs
      rcases List.mem_append.mp hjs with hin | hin
      · exfalso
        exact hnj (List.mem_map.mpr ⟨(scoreAt s metric query j, j), hin, rfl⟩)
      · have hrel := rel_of_take_drop hsort k hpmem hin
        unfold descRank at hrel
        dsimp only at hrel
        rcases hrel with h | h
        · rw [← hpi, ← hpchar.1]
          exact le_of_lt h
        · rw [← hpi, ← hpchar.1]
          exact le_of_eq h.1.symm

/-- Counterexample for C6 as stated: under the cosine metric, with the query [1]
stored exactly at offset 0 and the doubled copy [2] at offset 1, the doubled copy
scores strictly higher than the exact-equal record (the epsilon in the denominator
penalizes the smaller norm), so the equal record does not attain the maximum score
and is ranked second. -/
theorem c6_cosine_equal_not_max_counterexample :
    (scaledPairStore.entries[0]?).map (fun e => e.proto_identity) = some [1] ∧
    scoreAt scaledPairStore "cosine" [1] 1 >
      scoreAt scaledPairStore "cosine" [1] 0 ∧
    queryByProtoSimilarity scaledPairStore [1] 10 "cosine" = [1, 0] := by
  with_unfolding_all decide

/-- Witness for C6: on the two-record store, every conjunct instantiated — under the
L2 metric the record equal to the query attains the maximum score. -/
theorem c6_by_similarity_witness :
    scaledPairStore.entries[0]? = some baseEntry ∧
    baseEntry.proto_identity = [1] ∧
    (queryByProtoSimilarity scaledPairStore [1] 10 "l2").length ≤ 10 ∧
    (∀ j, scoreAt scaledPairStore "l2" [1] j ≤
      scoreAt scaledPairStore "l2" [1] 0) := by
  refine ⟨by with_unfolding_all decide, by with_unfolding_all decide,
    (c6_by_similarity scaledPairStore [1] 10 "l2").1, ?_⟩
  exact (c6_by_similarity scaledPairStore [1] 10 "l2").2.2.2 (by decide) 0
    baseEntry (by with_unfolding_all decide) (by with_unfolding_all decide)

/-- Every element of the keyed list of query_by_raycast pairs the camera distance of
its offset with the offset of a visible in-range record. -/
theorem mem_ray_keyed {s : VoxelCloud} {cam : ProjectionCamera} {p : ℚ × ℕ}
    (hp : p ∈ (s.entries.enum.filter
        (fun q => isVoxelVisible cam q.2.position 5)).map
      (fun q => (norm3 (sub3 q.2.position cam.position), q.1))) :
    p.1 = distAt s cam p.2 ∧
    ∃ e, s.entries[p.2]? = some e ∧ isVoxelVisible cam e.position 5 = true := by
  rcases List.mem_map.mp hp with ⟨q, hqmem, hqp⟩
  rcases List.mem_filter.mp hqmem with ⟨hqenum, hqvis⟩
  have hq := mem_enum_getElem hqenum
  subst hqp
  refine ⟨?_, q.2, hq, hqvis⟩
  unfold distAt
  rw [hq]

/-- C7 (amended): a record returned by by_raycast lies within [near-5, far+5] in
depth along the camera forward vector unless it sits within 1e-8 of the camera
(which the source treats as always visible, bypassing the depth window); a record is
visible iff it is that close or passes both the depth window and the half-fov cone
test; the LOD bucket is determined by camera distance with thresholds 10, 100, 200,
400; and results are ordered ascending by camera distance, at most max_results of
them. -/
theorem c7_raycast (s : VoxelCloud) (cam : ProjectionCamera) (k : ℕ) :
    (∀ i ∈ queryByRaycast s cam k, ∃ e, s.entries[i]? = some e ∧
      isVoxelVisible cam e.position 5 = true ∧
      (norm3 (sub3 e.position cam.position) ≤ eps8 ∨
        (cam.near - 5 ≤ voxelDepth cam e.position ∧
          voxelDepth cam e.position ≤ cam.far + 5))) ∧
    (∀ pos size, isVoxelVisible cam pos size = true ↔
      (norm3 (sub3 pos cam.position) ≤ eps8 ∨
        (¬(voxelDepth cam pos < cam.near - size ∨
            voxelDepth cam pos > cam.far + size) ∧
          clip1 (voxelDepth cam pos / (norm3 (sub3 pos cam.position) + eps8)) ≥
            cam.cosHalfFov))) ∧
    (∀ pos,
      (norm3 (sub3 pos cam.position) < 10 → computeLodLevel cam pos = 0) ∧
      (10 ≤ norm3 (sub3 pos cam.position) → norm3 (sub3 pos cam.position) < 100 →
        computeLodLevel cam pos = 1) ∧
      (100 ≤ norm3 (sub3 pos cam.position) → norm3 (sub3 pos cam.position) < 200 →
        computeLodLevel cam pos = 2) ∧
      (200 ≤ norm3 (sub3 pos cam.position) → norm3 (sub3 pos cam.position) < 400 →
        computeLodLevel cam pos = 3) ∧
      (400 ≤ norm3 (sub3 pos cam.position) → computeLodLevel cam pos = 4)) ∧
    (queryByRaycast s cam k).Pairwise (fun i j =>
      distAt s cam i < distAt s cam j ∨
      (distAt s cam i = distAt s cam j ∧ i ≤ j)) ∧
    (queryByRaycast s cam k).length ≤ k := by
  have hvis : ∀ pos size, isVoxelVisible cam pos size = true ↔
      (norm3 (sub3 pos cam.position) ≤ eps8 ∨
        (¬(voxelDepth cam pos < cam.near - size ∨
            voxelDepth cam pos > cam.far + size) ∧
          clip1 (voxelDepth cam pos / (norm3 (sub3 pos cam.position) + eps8)) ≥
            cam.cosHalfFov)) := by
    intro pos size
    unfold isVoxelVisible voxelDepth
    by_cases h1 : norm3 (sub3 pos cam.position) ≤ eps8
    · simp [h1]
    · rw [if_neg h1]
      by_cases h2 : dot3 (sub3 pos cam.position) (cameraForward cam) <
          cam.near - size ∨
          dot3 (sub3 pos cam.position) (cameraForward cam) > cam.far + size
      · simp [h2, h1]
      · simp [h2, h1]
  refine ⟨?_, hvis, ?_, ?_, ?_⟩
  · intro i hi
    rcases List.mem_map.mp hi with ⟨p, hpmem, hpi⟩
    have hpk := (List.perm_insertionSort ascRank _).mem_iff.mp
      (List.mem_of_mem_take hpmem)
    rcases (mem_ray_keyed hpk).2 with ⟨e, he, hev⟩
    refine ⟨e, by rw [← hpi]; exact he, hev, ?_⟩
    rcases (hvis e.position 5).mp hev with h | h
    · exact Or.inl h
    · right
      push_neg at h
      exact ⟨h.1.1, h.1.2⟩
  · intro pos
    unfold computeLodLevel
    refine ⟨fun h => by rw [if_pos h], fun h1 h2 => ?_, fun h1 h2 => ?_,
      fun h1 h2 => ?_, fun h1 => ?_⟩
    · rw [if_neg (not_lt.mpr h1), if_pos h2]
    · rw [if_neg (not_lt.mpr (by linarith)), if_neg (not_lt.mpr h1), if_pos h2]
    · rw [if_neg (not_lt.mpr (by linarith)), if_neg (not_lt.mpr (by linarith)),
        if_neg (not_lt.mpr h1), if_pos h2]
    · rw [if_neg (not_lt.mpr (by linarith)), if_neg (not_lt.mpr (by linarith)),
        if_neg (not_lt.mpr (by linarith)), if_neg (not_lt.mpr h1)]
  · unfold queryByRaycast
    rw [List.pairwise_map]
    have hsort := List.sorted_insertionSort (r := ascRank (α := ℚ))
      ((s.entries.enum.filter (fun q => isVoxelVisible cam q.2.position 5)).map
        (fun q => (norm3 (sub3 q.2.position cam.position), q.1)))
    refine (sorted_take hsort k).imp_of_mem ?_
    intro p q hp hq hr
    have h1 := (mem_ray_keyed ((List.perm_insertionSort (ascRank (α := ℚ)) _).mem_iff.mp
      (List.mem_of_mem_take hp))).1
    have h2 := (mem_ray_keyed ((List.perm_insertionSort (ascRank (α := ℚ)) _).mem_iff.mp
      (List.mem_of_mem_take hq))).1
    unfold ascRank at hr
    rcases hr with h | h
    · exact Or.inl (by rw [← h1, ← h2]; exact h)
    · exact Or.inr ⟨by rw [← h1, ← h2, h.1], h.2⟩
  · unfold queryByRaycast
    calc _ = _ := List.length_map _ _
      _ ≤ k := by rw [List.length_take]; exact min_le_left _ _

/-- Counterexample for C7 as stated: with the near plane at 10 and visibility
radius 5, a record sitting exactly at the camera position is returned by by_raycast
although its depth 0 along the forward vector lies outside [near-5, far+5] — the
source short-circuits any record within 1e-8 of the camera to visible. -/
theorem c7_depth_window_counterexample :
    queryByRaycast atCameraStore nearCamera 10 = [0] ∧
    voxelDepth nearCamera (0, 0, 0) = 0 ∧
    voxelDepth nearCamera (0, 0, 0) < nearCamera.near - 5 := by
  with_unfolding_all decide

/-- Witness for C7: a record at distance 150 from the camera sits in LOD bucket 2,
and on the at-camera store the returned record is visible with the depth-window
disjunction holding (through the at-camera disjunct). -/
theorem c7_raycast_witness :
    (100 : ℚ) ≤ norm3 (sub3 (150, 0, 0) nearCamera.position) ∧
    norm3 (sub3 (150, 0, 0) nearCamera.position) < 200 ∧
    computeLodLevel nearCamera (150, 0, 0) = 2 ∧
    (∃ e, atCameraStore.entries[0]? = some e ∧
      isVoxelVisible nearCamera e.position 5 = true ∧
      (norm3 (sub3 e.position nearCamera.position) ≤ eps8 ∨
        (nearCamera.near - 5 ≤ voxelDepth nearCamera e.position ∧
          voxelDepth nearCamera e.position ≤ nearCamera.far + 5))) := by
  have h150 : norm3 (sub3 (150, 0, 0) nearCamera.position) = 150 := by
    unfold norm3
    rw [show dot3 (sub3 (150, 0, 0) nearCamera.position)
        (sub3 (150, 0, 0) nearCamera.position) = 150 * 150 by
      unfold nearCamera sub3 dot3
      norm_num]
    rw [Rat.sqrt_eq]
    norm_num
  have h1 : (100 : ℚ) ≤ norm3 (sub3 (150, 0, 0) nearCamera.position) := by
    rw [h150]; norm_num
  have h2 : norm3 (sub3 (150, 0, 0) nearCamera.position) < 200 := by
    rw [h150]; norm_num
  refine ⟨h1, h2,
    ((c7_raycast atCameraStore nearCamera 10).2.2.1 (150, 0, 0)).2.2.1 h1 h2, ?_⟩
  exact (c7_raycast atCameraStore nearCamera 10).1 0 (by with_unfolding_all decide)

/-- C10: find_cross_modal_links only ever returns records whose modality differs from
the queried record's modality, even when a same-modality record appears in the link
set or lists the queried record. -/
theorem c10_links_only_other_modalities (s : VoxelCloud)
    (entry : ProtoIdentityEntry) (i : ℕ) (hi : i ∈ findCrossModalLinks s entry) :
    ∃ e, s.entries[i]? = some e ∧ e.modality ≠ entry.modality := by
  unfold findCrossModalLinks at hi
  rcases List.mem_map.mp hi with ⟨p, hpmem, hpi⟩
  rcases List.mem_filter.mp hpmem with ⟨hpenum, hP⟩
  refine ⟨p.2, ?_, ?_⟩
  · rw [← hpi]; exact mem_enum_getElem hpenum
  · have h1 := (Bool.and_eq_true _ _).mp hP
    simpa using h1.1

/-- Witness for C10 at a concrete store: the image record listing the text record is
returned (offset 1) and is indeed of another modality. -/
theorem c10_links_only_other_modalities_witness :
    1 ∈ findCrossModalLinks crossStore textEntry ∧
    ∃ e, crossStore.entries[1]? = some e ∧ e.modality ≠ textEntry.modality :=
  ⟨by with_unfolding_all decide,
    c10_links_only_other_modalities crossStore textEntry 1
      (by with_unfolding_all decide)⟩

/-
C9 machinery: frame and characterization lemmas for the cross-modal linking pass.
-/

theorem getElem?_set_some {α : Type} {l : List α} {m : ℕ} {a : α} (b : α)
    (h : l[m]? = some a) : (l.set m b)[m]? = some b := by
  have hm : m < l.length := by
    by_contra hlt
    rw [List.getElem?_eq_none (Nat.le_of_not_lt hlt)] at h
    exact Option.noConfusion h
  rw [List.getElem?_set_self hm]

theorem setEntry_get_same {a : VoxelCloud} {m : ℕ} {em : ProtoIdentityEntry}
    (hm : a.entries[m]? = some em) (e : ProtoIdentityEntry) :
    (setEntry a m e).entries[m]? = some e :=
  getElem?_set_some e hm

theorem setEntry_get_other (a : VoxelCloud) (m : ℕ) (e : ProtoIdentityEntry)
    {i : ℕ} (him : m ≠ i) : (setEntry a m e).entries[i]? = a.entries[i]? :=
  List.getElem?_set_ne him

theorem fieldsEq_refl (s : VoxelCloud) : FieldsEq s s := ⟨rfl, fun _ => rfl⟩

theorem fieldsEq_trans {s a b : VoxelCloud} (h1 : FieldsEq s a)
    (h2 : FieldsEq a b) : FieldsEq s b :=
  ⟨h2.1.trans h1.1, fun i => (h2.2 i).trans (h1.2 i)⟩

theorem fieldsEq_symm {s a : VoxelCloud} (h : FieldsEq s a) : FieldsEq a s :=
  ⟨h.1.symm, fun i => (h.2 i).symm⟩

theorem linksMono_refl (s : VoxelCloud) : LinksMono s s :=
  fun _ ea hea => ⟨ea, hea, fun _ hx => hx⟩

theorem linksMono_trans {a b c : VoxelCloud} (h1 : LinksMono a b)
    (h2 : LinksMono b c) : LinksMono a c := by
  intro i ea hea
  obtain ⟨eb, heb, hab⟩ := h1 i ea hea
  obtain ⟨ec, hec, hbc⟩ := h2 i eb heb
  exact ⟨ec, hec, fun x hx => hbc x (hab x hx)⟩

theorem fieldsEq_lookup {s a : VoxelCloud} (h : FieldsEq s a) {i : ℕ}
    {e : ProtoIdentityEntry} (he : s.entries[i]? = some e) :
    ∃ ea, a.entries[i]? = some ea ∧ ea.mid = e.mid ∧ ea.modality = e.modality ∧
      ea.fundamental_freq = e.fundamental_freq := by
  have h2 := h.2 i
  rw [he] at h2
  cases hea : a.entries[i]? with
  | none => rw [hea] at h2; exact Option.noConfusion h2
  | some ea =>
    rw [hea] at h2
    simp only [Option.map_some'] at h2
    have h3 := Option.some.inj h2
    exact ⟨ea, rfl, congrArg (fun q => q.1) h3,
      congrArg (fun q => q.2.1) h3, congrArg (fun q => q.2.2) h3⟩

theorem mutualAt_mono {a b : VoxelCloud} {t j : ℕ} {mt mj : String}
    (h : MutualAt a t j mt mj) (hm : LinksMono a b) : MutualAt b t j mt mj := by
  obtain ⟨te, je, hte, hje, h1, h2⟩ := h
  obtain ⟨te2, hte2, hmt⟩ := hm t te hte
  obtain ⟨je2, hje2, hmj⟩ := hm j je hje
  exact ⟨te2, je2, hte2, hje2, hmt mj h1, hmj mt h2⟩

theorem setEntry_fieldsEq {a : VoxelCloud} {m : ℕ} {em : ProtoIdentityEntry}
    (hm : a.entries[m]? = some em) (L : List String) :
    FieldsEq a (setEntry a m
      { em with cross_modal_links := em.cross_modal_links ++ L }) := by
  constructor
  · exact List.length_set a.entries m _
  · intro i
    by_cases him : m = i
    · subst him
      rw [setEntry_get_same hm, hm]
      rfl
    · rw [setEntry_get_other a m _ him]

theorem setEntry_linksMono {a : VoxelCloud} {m : ℕ} {em : ProtoIdentityEntry}
    (hm : a.entries[m]? = some em) (L : List String) :
    LinksMono a (setEntry a m
      { em with cross_modal_links := em.cross_modal_links ++ L }) := by
  intro i ea hea
  by_cases him : m = i
  · subst him
    rw [hm] at hea
    have hem : ea = em := (Option.some.inj hea).symm
    subst hem
    exact ⟨_, setEntry_get_same hm _, fun x hx => List.mem_append_left L hx⟩
  · exact ⟨ea, by rw [setEntry_get_other a m _ him]; exact hea,
      fun _ hx => hx⟩

theorem mem_modalityIdxs {s : VoxelCloud} {m : String} {i : ℕ}
    (hi : i ∈ modalityIdxs s m) :
    ∃ e, s.entries[i]? = some e ∧ e.modality = m := by
  unfold modalityIdxs at hi
  obtain ⟨p, hp, hpi⟩ := List.mem_map.mp hi
  have hpe := List.mem_filter.mp hp
  refine ⟨p.2, ?_, of_decide_eq_true hpe.2⟩
  rw [← hpi]
  exact mem_enum_getElem hpe.1

theorem modalityIdxs_mem {s : VoxelCloud} {m : String} {i : ℕ}
    {e : ProtoIdentityEntry} (he : s.entries[i]? = some e) (hm : e.modality = m) :
    i ∈ modalityIdxs s m := by
  unfold modalityIdxs
  refine List.mem_map.mpr ⟨(i, e), List.mem_filter.mpr ⟨?_, decide_eq_true hm⟩, rfl⟩
  exact List.mem_enum_iff_getElem?.mpr he

theorem nodup_modalityIdxs (s : VoxelCloud) (m : String) :
    (modalityIdxs s m).Nodup := by
  unfold modalityIdxs
  have hsub : ((s.entries.enum.filter
      (fun p => decide (p.2.modality = m))).map Prod.fst).Sublist
      (s.entries.enum.map Prod.fst) :=
    (List.filter_sublist _).map Prod.fst
  have hnd : (s.entries.enum.map Prod.fst).Nodup := by
    rw [List.enum_map_fst]
    exact List.nodup_range _
  exact hnd.sublist hsub

theorem linkPairStep_missing {tol : ℚ} {t j : ℕ} {acc : VoxelCloud × ℕ}
    (h : acc.1.entries[t]? = none ∨ acc.1.entries[j]? = none) :
    linkPairStep tol t acc j = acc := by
  unfold linkPairStep
  dsimp only
  rcases h with h | h
  · rw [h]
  · rw [h]
    cases acc.1.entries[t]? <;> rfl

theorem linkPairStep_far {tol : ℚ} {t j : ℕ} {acc : VoxelCloud × ℕ}
    {te je : ProtoIdentityEntry}
    (hte : acc.1.entries[t]? = some te) (hje : acc.1.entries[j]? = some je)
    (hfar : ¬ |je.fundamental_freq - te.fundamental_freq| < tol) :
    linkPairStep tol t acc j = acc := by
  unfold linkPairStep
  dsimp only
  rw [hte, hje]
  dsimp only
  rw [if_neg hfar]

theorem linkPairStep_both {tol : ℚ} {t j : ℕ} {acc : VoxelCloud × ℕ}
    {te je : ProtoIdentityEntry}
    (hte : acc.1.entries[t]? = some te) (hje : acc.1.entries[j]? = some je)
    (hclose : |je.fundamental_freq - te.fundamental_freq| < tol)
    (h1 : je.mid ∈ te.cross_modal_links) (h2 : te.mid ∈ je.cross_modal_links) :
    linkPairStep tol t acc j = acc := by
  unfold linkPairStep
  dsimp only
  rw [hte, hje]
  dsimp only
  rw [if_pos hclose, if_pos h1, if_pos h2]

theorem linkPairStep_teOnly {tol : ℚ} {t j : ℕ} {acc : VoxelCloud × ℕ}
    {te je : ProtoIdentityEntry}
    (hte : acc.1.entries[t]? = some te) (hje : acc.1.entries[j]? = some je)
    (hclose : |je.fundamental_freq - te.fundamental_freq| < tol)
    (h1 : je.mid ∉ te.cross_modal_links) (h2 : te.mid ∈ je.cross_modal_links) :
    linkPairStep tol t acc j = (setEntry acc.1 t
      { te with cross_modal_links := te.cross_modal_links ++ [je.mid] },
      acc.2 + 1) := by
  unfold linkPairStep
  dsimp only
  rw [hte, hje]
  dsimp only
  rw [if_pos hclose, if_neg h1, if_pos h2]
  rfl

theorem linkPairStep_jeOnly {tol : ℚ} {t j : ℕ} {acc : VoxelCloud × ℕ}
    {te je : ProtoIdentityEntry}
    (hte : acc.1.entries[t]? = some te) (hje : acc.1.entries[j]? = some je)
    (hclose : |je.fundamental_freq - te.fundamental_freq| < tol)
    (h1 : je.mid ∈ te.cross_modal_links) (h2 : te.mid ∉ je.cross_modal_links) :
    linkPairStep tol t acc j = (setEntry acc.1 j
      { je with cross_modal_links := je.cross_modal_links ++ [te.mid] },
      acc.2) := by
  unfold linkPairStep
  dsimp only
  rw [hte, hje]
  dsimp only
  rw [if_pos hclose, if_pos h1, if_neg h2]
  rfl

theorem linkPairStep_neither {tol : ℚ} {t j : ℕ} {acc : VoxelCloud × ℕ}
    {te je : ProtoIdentityEntry}
    (hte : acc.1.entries[t]? = some te) (hje : acc.1.entries[j]? = some je)
    (hclose : |je.fundamental_freq - te.fundamental_freq| < tol)
    (h1 : je.mid ∉ te.cross_modal_links) (h2 : te.mid ∉ je.cross_modal_links) :
    linkPairStep tol t acc j = (setEntry (setEntry acc.1 t
      { te with cross_modal_links := te.cross_modal_links ++ [je.mid] }) j
      { je with cross_modal_links := je.cross_modal_links ++ [te.mid] },
      acc.2 + 1) := by
  unfold linkPairStep
  dsimp only
  rw [hte, hje]
  dsimp only
  rw [if_pos hclose, if_neg h1, if_neg h2]
  rfl

theorem setEntry_setEntry_same (a : VoxelCloud) (m : ℕ)
    (e e2 : ProtoIdentityEntry) :
    setEntry (setEntry a m e) m e2 = setEntry a m e2 := by
  unfold setEntry
  dsimp only
  rw [List.set_set]

theorem linkPairStep_mono (tol : ℚ) (t j : ℕ) (acc : VoxelCloud × ℕ) :
    FieldsEq acc.1 (linkPairStep tol t acc j).1 ∧
    LinksMono acc.1 (linkPairStep tol t acc j).1 := by
  cases hte : acc.1.entries[t]? with
  | none =>
    rw [linkPairStep_missing (Or.inl hte)]
    exact ⟨fieldsEq_refl _, linksMono_refl _⟩
  | some te =>
    cases hje : acc.1.entries[j]? with
    | none =>
      rw [linkPairStep_missing (Or.inr hje)]
      exact ⟨fieldsEq_refl _, linksMono_refl _⟩
    | some je =>
      by_cases hclose : |je.fundamental_freq - te.fundamental_freq| < tol
      · by_cases h1 : je.mid ∈ te.cross_modal_links
        · by_cases h2 : te.mid ∈ je.cross_modal_links
          · rw [linkPairStep_both hte hje hclose h1 h2]
            exact ⟨fieldsEq_refl _, linksMono_refl _⟩
          · rw [linkPairStep_jeOnly hte hje hclose h1 h2]
            exact ⟨setEntry_fieldsEq hje [te.mid], setEntry_linksMono hje [te.mid]⟩
        · by_cases h2 : te.mid ∈ je.cross_modal_links
          · rw [linkPairStep_teOnly hte hje hclose h1 h2]
            exact ⟨setEntry_fieldsEq hte [je.mid], setEntry_linksMono hte [je.mid]⟩
          · rw [linkPairStep_neither hte hje hclose h1 h2]
            by_cases hjt : t = j
            · subst hjt
              rw [hte] at hje
              have hej : te = je := Option.some.inj hje
              subst hej
              rw [setEntry_setEntry_same]
              exact ⟨setEntry_fieldsEq hte [te.mid], setEntry_linksMono hte [te.mid]⟩
            · have hje2 : (setEntry acc.1 t
                  { te with cross_modal_links :=
                    te.cross_modal_links ++ [je.mid] }).entries[j]? = some je := by
                rw [setEntry_get_other _ _ _ hjt]
                exact hje
              exact ⟨fieldsEq_trans (setEntry_fieldsEq hte [je.mid])
                  (setEntry_fieldsEq hje2 [te.mid]),
                linksMono_trans (setEntry_linksMono hte [je.mid])
                  (setEntry_linksMono hje2 [te.mid])⟩
      · rw [linkPairStep_far hte hje hclose]
        exact ⟨fieldsEq_refl _, linksMono_refl _⟩

theorem innerFold_mono (tol : ℚ) (t : ℕ) :
    ∀ (js : List ℕ) (acc : VoxelCloud × ℕ),
      FieldsEq acc.1 ((js.foldl (linkPairStep tol t) acc).1) ∧
      LinksMono acc.1 ((js.foldl (linkPairStep tol t) acc).1)
  | [], _ => ⟨fieldsEq_refl _, linksMono_refl _⟩
  | j :: js, acc => by
    have hstep := linkPairStep_mono tol t j acc
    have hrest := innerFold_mono tol t js (linkPairStep tol t acc j)
    exact ⟨fieldsEq_trans hstep.1 hrest.1, linksMono_trans hstep.2 hrest.2⟩

theorem outerFold_mono (tol : ℚ) (js : List ℕ) :
    ∀ (ts : List ℕ) (acc : VoxelCloud × ℕ),
      FieldsEq acc.1
        ((ts.foldl (fun a t => js.foldl (linkPairStep tol t) a) acc).1) ∧
      LinksMono acc.1
        ((ts.foldl (fun a t => js.foldl (linkPairStep tol t) a) acc).1)
  | [], _ => ⟨fieldsEq_refl _, linksMono_refl _⟩
  | t :: ts, acc => by
    have hstep := innerFold_mono tol t js acc
    have hrest := outerFold_mono tol js ts (js.foldl (linkPairStep tol t) acc)
    exact ⟨fieldsEq_trans hstep.1 hrest.1, linksMono_trans hstep.2 hrest.2⟩

theorem linkPairStep_establish {tol : ℚ} {t j : ℕ} {acc : VoxelCloud × ℕ}
    {te je : ProtoIdentityEntry}
    (hte : acc.1.entries[t]? = some te) (hje : acc.1.entries[j]? = some je)
    (hne : t ≠ j)
    (hclose : |je.fundamental_freq - te.fundamental_freq| < tol) :
    MutualAt (linkPairStep tol t acc j).1 t j te.mid je.mid := by
  by_cases h1 : je.mid ∈ te.cross_modal_links
  · by_cases h2 : te.mid ∈ je.cross_modal_links
    · rw [linkPairStep_both hte hje hclose h1 h2]
      exact ⟨te, je, hte, hje, h1, h2⟩
    · rw [linkPairStep_jeOnly hte hje hclose h1 h2]
      refine ⟨te,
        { je with cross_modal_links := je.cross_modal_links ++ [te.mid] },
        ?_, setEntry_get_same hje _, h1,
        List.mem_append_right _ (List.mem_singleton_self _)⟩
      rw [setEntry_get_other _ _ _ (Ne.symm hne)]
      exact hte
  · by_cases h2 : te.mid ∈ je.cross_modal_links
    · rw [linkPairStep_teOnly hte hje hclose h1 h2]
      refine ⟨{ te with cross_modal_links := te.cross_modal_links ++ [je.mid] },
        je, setEntry_get_same hte _, ?_,
        List.mem_append_right _ (List.mem_singleton_self _), h2⟩
      rw [setEntry_get_other _ _ _ hne]
      exact hje
    · rw [linkPairStep_neither hte hje hclose h1 h2]
      have hje2 : (setEntry acc.1 t
          { te with cross_modal_links :=
            te.cross_modal_links ++ [je.mid] }).entries[j]? = some je := by
        rw [setEntry_get_other _ _ _ hne]
        exact hje
      refine ⟨{ te with cross_modal_links := te.cross_modal_links ++ [je.mid] },
        { je with cross_modal_links := je.cross_modal_links ++ [te.mid] },
        ?_, setEntry_get_same hje2 _,
        List.mem_append_right _ (List.mem_singleton_self _),
        List.mem_append_right _ (List.mem_singleton_self _)⟩
      rw [setEntry_get_other _ _ _ (Ne.symm hne)]
      exact setEntry_get_same hte _

theorem innerFold_establish {tol : ℚ} {s : VoxelCloud} {t : ℕ}
    {te0 : ProtoIdentityEntry} (hte0 : s.entries[t]? = some te0)
    {j : ℕ} {je0 : ProtoIdentityEntry} (hje0 : s.entries[j]? = some je0)
    (hne : t ≠ j)
    (hclose : |je0.fundamental_freq - te0.fundamental_freq| < tol) :
    ∀ (js : List ℕ) (acc : VoxelCloud × ℕ), j ∈ js →
      FieldsEq s acc.1 →
      MutualAt ((js.foldl (linkPairStep tol t) acc).1) t j te0.mid je0.mid := by
  intro js
  induction js with
  | nil => intro acc hj _; exact absurd hj (List.not_mem_nil j)
  | cons j2 js ih =>
    intro acc hj hfe
    by_cases hjj : j = j2
    · subst hjj
      obtain ⟨tea, htea, htm, _, htf⟩ := fieldsEq_lookup hfe hte0
      obtain ⟨jea, hjea, hjm, _, hjf⟩ := fieldsEq_lookup hfe hje0
      have hclose2 : |jea.fundamental_freq - tea.fundamental_freq| < tol := by
        rw [htf, hjf]
        exact hclose
      have hest := linkPairStep_establish htea hjea hne hclose2
      rw [htm, hjm] at hest
      exact mutualAt_mono hest (innerFold_mono tol t js (linkPairStep tol t acc j)).2
    · have hj2 : j ∈ js := by
        rcases List.mem_cons.mp hj with h | h
        · exact absurd h hjj
        · exact h
      have hfe2 : FieldsEq s (linkPairStep tol t acc j2).1 :=
        fieldsEq_trans hfe (linkPairStep_mono tol t j2 acc).1
      exact ih (linkPairStep tol t acc j2) hj2 hfe2

theorem outerFold_establish {tol : ℚ} {s : VoxelCloud} {t : ℕ}
    {te0 : ProtoIdentityEntry} (hte0 : s.entries[t]? = some te0)
    {j : ℕ} {je0 : ProtoIdentityEntry} (hje0 : s.entries[j]? = some je0)
    (hne : t ≠ j)
    (hclose : |je0.fundamental_freq - te0.fundamental_freq| < tol)
    (js : List ℕ) (hj : j ∈ js) :
    ∀ (ts : List ℕ) (acc : VoxelCloud × ℕ), t ∈ ts →
      FieldsEq s acc.1 →
      MutualAt ((ts.foldl (fun a t2 => js.foldl (linkPairStep tol t2) a) acc).1)
        t j te0.mid je0.mid := by
  intro ts
  induction ts with
  | nil => intro acc ht _; exact absurd ht (List.not_mem_nil t)
  | cons t2 ts ih =>
    intro acc ht hfe
    by_cases htt : t = t2
    · subst htt
      have hest := innerFold_establish hte0 hje0 hne hclose js acc hj hfe
      exact mutualAt_mono hest
        (outerFold_mono tol js ts (js.foldl (linkPairStep tol t) acc)).2
    · have ht2 : t ∈ ts := by
        rcases List.mem_cons.mp ht with h | h
        · exact absurd h htt
        · exact h
      have hfe2 : FieldsEq s ((js.foldl (linkPairStep tol t2) acc)).1 :=
        fieldsEq_trans hfe (innerFold_mono tol t2 js acc).1
      exact ih (js.foldl (linkPairStep tol t2) acc) ht2 hfe2

theorem linkCross_allLinked (s : VoxelCloud) (tol : ℚ) :
    AllLinked (linkCrossModalProtos s tol).1 tol := by
  intro t j te je hte hje htm hjm hclose
  have hfe : FieldsEq s (linkCrossModalProtos s tol).1 :=
    (outerFold_mono tol (modalityIdxs s "image" ++ modalityIdxs s "audio")
      (modalityIdxs s "text") (s, 0)).1
  obtain ⟨te0, hte0, htm0, htmod0, htf0⟩ := fieldsEq_lookup (fieldsEq_symm hfe) hte
  obtain ⟨je0, hje0, hjm0, hjmod0, hjf0⟩ := fieldsEq_lookup (fieldsEq_symm hfe) hje
  have hne : t ≠ j := by
    intro h
    subst h
    rw [hte] at hje
    have hej : te = je := Option.some.inj hje
    subst hej
    rcases hjm with h | h
    · rw [htm] at h; exact absurd h (by decide)
    · rw [htm] at h; exact absurd h (by decide)
  have hclose0 : |je0.fundamental_freq - te0.fundamental_freq| < tol := by
    rw [hjf0, htf0]
    exact hclose
  have htmem : t ∈ modalityIdxs s "text" :=
    modalityIdxs_mem hte0 (htmod0.trans htm)
  have hjmem : j ∈ modalityIdxs s "image" ++ modalityIdxs s "audio" := by
    rcases hjm with h | h
    · exact List.mem_append_left _ (modalityIdxs_mem hje0 (hjmod0.trans h))
    · exact List.mem_append_right _ (modalityIdxs_mem hje0 (hjmod0.trans h))
  have hmut := outerFold_establish hte0 hje0 hne hclose0
    (modalityIdxs s "image" ++ modalityIdxs s "audio") hjmem
    (modalityIdxs s "text") (s, 0) htmem (fieldsEq_refl s)
  obtain ⟨te2, je2, hte2, hje2, hm1, hm2⟩ := hmut
  have hte2b : (linkCrossModalProtos s tol).1.entries[t]? = some te2 := hte2
  have hje2b : (linkCrossModalProtos s tol).1.entries[j]? = some je2 := hje2
  have hteq : te2 = te := by
    rw [hte] at hte2b
    exact (Option.some.inj hte2b).symm
  have hjeq : je2 = je := by
    rw [hje] at hje2b
    exact (Option.some.inj hje2b).symm
  subst hteq
  subst hjeq
  rw [hjm0] at hm1
  rw [htm0] at hm2
  exact ⟨hm1, hm2⟩

theorem linkPairStep_noop {s1 : VoxelCloud} {tol : ℚ} (hall : AllLinked s1 tol)
    {t j : ℕ} {c : ℕ} (ht : t ∈ modalityIdxs s1 "text")
    (hj : j ∈ modalityIdxs s1 "image" ++ modalityIdxs s1 "audio") :
    linkPairStep tol t (s1, c) j = (s1, c) := by
  obtain ⟨te, hte, htm⟩ := mem_modalityIdxs ht
  have hj2 : ∃ je, s1.entries[j]? = some je ∧
      (je.modality = "image" ∨ je.modality = "audio") := by
    rcases List.mem_append.mp hj with h | h
    · obtain ⟨je, hje, hjm⟩ := mem_modalityIdxs h
      exact ⟨je, hje, Or.inl hjm⟩
    · obtain ⟨je, hje, hjm⟩ := mem_modalityIdxs h
      exact ⟨je, hje, Or.inr hjm⟩
  obtain ⟨je, hje, hjm⟩ := hj2
  by_cases hclose : |je.fundamental_freq - te.fundamental_freq| < tol
  · obtain ⟨h1, h2⟩ := hall t j te je hte hje htm hjm hclose
    exact @linkPairStep_both tol t j (s1, c) te je hte hje hclose h1 h2
  · exact @linkPairStep_far tol t j (s1, c) te je hte hje hclose

theorem innerFold_noop {s1 : VoxelCloud} {tol : ℚ} (hall : AllLinked s1 tol)
    {t : ℕ} (ht : t ∈ modalityIdxs s1 "text") :
    ∀ (js : List ℕ),
      (∀ j ∈ js, j ∈ modalityIdxs s1 "image" ++ modalityIdxs s1 "audio") →
      ∀ c : ℕ, js.foldl (linkPairStep tol t) (s1, c) = (s1, c) := by
  intro js
  induction js with
  | nil => intro _ c; rfl
  | cons j js ih =>
    intro hmem c
    have hstep := @linkPairStep_noop s1 tol hall t j c ht
      (hmem j (List.mem_cons_self j js))
    calc (j :: js).foldl (linkPairStep tol t) (s1, c)
        = js.foldl (linkPairStep tol t) (linkPairStep tol t (s1, c) j) := rfl
      _ = js.foldl (linkPairStep tol t) (s1, c) := by rw [hstep]
      _ = (s1, c) := ih (fun j2 hj2 => hmem j2 (List.mem_cons_of_mem j hj2)) c

theorem linkCross_noop {s1 : VoxelCloud} {tol : ℚ} (hall : AllLinked s1 tol) :
    linkCrossModalProtos s1 tol = (s1, 0) := by
  have houter : ∀ (ts : List ℕ), (∀ t ∈ ts, t ∈ modalityIdxs s1 "text") →
      ts.foldl (fun a t =>
        (modalityIdxs s1 "image" ++ modalityIdxs s1 "audio").foldl
          (linkPairStep tol t) a) (s1, 0) = (s1, 0) := by
    intro ts
    induction ts with
    | nil => intro _; rfl
    | cons t ts ih =>
      intro hmem
      have hinner := innerFold_noop hall (hmem t (List.mem_cons_self t ts))
        (modalityIdxs s1 "image" ++ modalityIdxs s1 "audio") (fun _ hj => hj) 0
      calc (t :: ts).foldl _ (s1, 0)
          = ts.foldl (fun a t2 =>
              (modalityIdxs s1 "image" ++ modalityIdxs s1 "audio").foldl
                (linkPairStep tol t2) a)
              ((modalityIdxs s1 "image" ++ modalityIdxs s1 "audio").foldl
                (linkPairStep tol t) (s1, 0)) := rfl
        _ = (s1, 0) := by
            rw [hinner]
            exact ih (fun t2 ht2 => hmem t2 (List.mem_cons_of_mem t ht2))
  exact houter (modalityIdxs s1 "text") (fun _ ht => ht)

theorem linkPairStep_frame (tol : ℚ) (t j : ℕ) (acc : VoxelCloud × ℕ) {i : ℕ}
    (hit : i ≠ t) (hij : i ≠ j) :
    (linkPairStep tol t acc j).1.entries[i]? = acc.1.entries[i]? := by
  cases hte : acc.1.entries[t]? with
  | none => rw [linkPairStep_missing (Or.inl hte)]
  | some te =>
    cases hje : acc.1.entries[j]? with
    | none => rw [linkPairStep_missing (Or.inr hje)]
    | some je =>
      by_cases hclose : |je.fundamental_freq - te.fundamental_freq| < tol
      · by_cases h1 : je.mid ∈ te.cross_modal_links
        · by_cases h2 : te.mid ∈ je.cross_modal_links
          · rw [linkPairStep_both hte hje hclose h1 h2]
          · rw [linkPairStep_jeOnly hte hje hclose h1 h2]
            exact setEntry_get_other _ _ _ (Ne.symm hij)
        · by_cases h2 : te.mid ∈ je.cross_modal_links
          · rw [linkPairStep_teOnly hte hje hclose h1 h2]
            exact setEntry_get_other _ _ _ (Ne.symm hit)
          · rw [linkPairStep_neither hte hje hclose h1 h2]
            exact (setEntry_get_other _ _ _ (Ne.symm hij)).trans
              (setEntry_get_other _ _ _ (Ne.symm hit))
      · rw [linkPairStep_far hte hje hclose]

theorem innerFold_frame (tol : ℚ) (t : ℕ) :
    ∀ (js : List ℕ) (acc : VoxelCloud × ℕ) (i : ℕ), i ≠ t → (∀ j ∈ js, i ≠ j) →
      (js.foldl (linkPairStep tol t) acc).1.entries[i]? = acc.1.entries[i]?
  | [], _, _, _, _ => rfl
  | j :: js, acc, i, hit, hj => by
    have h1 := linkPairStep_frame tol t j acc hit (hj j (List.mem_cons_self j js))
    have h2 := innerFold_frame tol t js (linkPairStep tol t acc j) i hit
      (fun j2 hj2 => hj j2 (List.mem_cons_of_mem j hj2))
    exact h2.trans h1

theorem innerFold_count {tol : ℚ} {s : VoxelCloud} {t : ℕ}
    {te0 : ProtoIdentityEntry} (hte0 : s.entries[t]? = some te0)
    (hmid : ∀ (i1 i2 : ℕ) (e1 e2 : ProtoIdentityEntry),
      s.entries[i1]? = some e1 → s.entries[i2]? = some e2 →
      e1.mid = e2.mid → i1 = i2) :
    ∀ (js : List ℕ), js.Nodup → (∀ j ∈ js, j ≠ t) →
      ∀ (acc : VoxelCloud × ℕ) (tea : ProtoIdentityEntry),
      FieldsEq s acc.1 →
      acc.1.entries[t]? = some tea →
      (∀ j ∈ js, ∀ je0 : ProtoIdentityEntry, s.entries[j]? = some je0 →
        (je0.mid ∈ tea.cross_modal_links ↔ je0.mid ∈ te0.cross_modal_links)) →
      (js.foldl (linkPairStep tol t) acc).2 =
        acc.2 + (js.filter (fun j2 =>
          match s.entries[t]?, s.entries[j2]? with
          | some te, some je =>
            decide (|je.fundamental_freq - te.fundamental_freq| < tol) &&
              decide (je.mid ∉ te.cross_modal_links)
          | _, _ => false)).length := by
  intro js
  induction js with
  | nil => intro _ _ acc tea _ _ _; rfl
  | cons j js ih =>
    intro hnd hjt acc tea hfe htea hlinks
    have hjnotin : j ∉ js := (List.nodup_cons.mp hnd).1
    have hndtail : js.Nodup := (List.nodup_cons.mp hnd).2
    have hjtt : j ≠ t := hjt j (List.mem_cons_self j js)
    have hjttail : ∀ j2 ∈ js, j2 ≠ t :=
      fun j2 hj2 => hjt j2 (List.mem_cons_of_mem j hj2)
    have hlinkstail : ∀ j2 ∈ js, ∀ je0 : ProtoIdentityEntry,
        s.entries[j2]? = some je0 →
        (je0.mid ∈ tea.cross_modal_links ↔ je0.mid ∈ te0.cross_modal_links) :=
      fun j2 hj2 => hlinks j2 (List.mem_cons_of_mem j hj2)
    -- identify tea's shared fields with te0
    obtain ⟨tea2, htea2, hteam2, _, hteaf2⟩ := fieldsEq_lookup hfe hte0
    have hteaeq : tea2 = tea := by
      rw [htea] at htea2
      exact (Option.some.inj htea2).symm
    have hteam : tea.mid = te0.mid := hteaeq ▸ hteam2
    have hteaf : tea.fundamental_freq = te0.fundamental_freq := hteaeq ▸ hteaf2
    cases hsj : s.entries[j]? with
    | none =>
      have haj : acc.1.entries[j]? = none := by
        have h2 := hfe.2 j
        rw [hsj] at h2
        exact Option.map_eq_none'.mp h2
      have hstep := @linkPairStep_missing tol t j acc (Or.inr haj)
      rw [List.filter_cons_of_neg (by
        intro h
        replace h : (match s.entries[t]?, s.entries[j]? with
          | some te, some je =>
            decide (|je.fundamental_freq - te.fundamental_freq| < tol) &&
              decide (je.mid ∉ te.cross_modal_links)
          | _, _ => false) = true := h
        rw [hte0, hsj] at h
        simp at h)]
      show (js.foldl (linkPairStep tol t) (linkPairStep tol t acc j)).2 = _
      rw [hstep]
      exact ih hndtail hjttail acc tea hfe htea hlinkstail
    | some je0 =>
      obtain ⟨jea, hjea, hjeam, _, hjeaf⟩ := fieldsEq_lookup hfe hsj
      by_cases hclose0 : |je0.fundamental_freq - te0.fundamental_freq| < tol
      · have hclosea : |jea.fundamental_freq - tea.fundamental_freq| < tol := by
          rw [hjeaf, hteaf]
          exact hclose0
        by_cases hm1 : je0.mid ∈ te0.cross_modal_links
        · -- text side already linked: skip in count, state may still set j
          have hm1a : jea.mid ∈ tea.cross_modal_links := by
            rw [hjeam]
            exact (hlinks j (List.mem_cons_self j js) je0 hsj).mpr hm1
          rw [List.filter_cons_of_neg (by
            intro h
            replace h : (match s.entries[t]?, s.entries[j]? with
              | some te, some je =>
                decide (|je.fundamental_freq - te.fundamental_freq| < tol) &&
                  decide (je.mid ∉ te.cross_modal_links)
              | _, _ => false) = true := h
            rw [hte0, hsj] at h
            simp [hm1] at h)]
          show (js.foldl (linkPairStep tol t) (linkPairStep tol t acc j)).2 = _
          by_cases hm2 : tea.mid ∈ jea.cross_modal_links
          · rw [linkPairStep_both htea hjea hclosea hm1a hm2]
            exact ih hndtail hjttail acc tea hfe htea hlinkstail
          · rw [linkPairStep_jeOnly htea hjea hclosea hm1a hm2]
            refine ih hndtail hjttail _ tea
              (fieldsEq_trans hfe (setEntry_fieldsEq hjea [tea.mid])) ?_
              hlinkstail
            show (setEntry acc.1 j _).entries[t]? = some tea
            rw [setEntry_get_other _ _ _ hjtt]
            exact htea
        · -- new text-side link: counted
          have hm1a : jea.mid ∉ tea.cross_modal_links := by
            rw [hjeam]
            intro h
            exact hm1 ((hlinks j (List.mem_cons_self j js) je0 hsj).mp h)
          rw [List.filter_cons_of_pos (by
            show (match s.entries[t]?, s.entries[j]? with
              | some te, some je =>
                decide (|je.fundamental_freq - te.fundamental_freq| < tol) &&
                  decide (je.mid ∉ te.cross_modal_links)
              | _, _ => false) = true
            rw [hte0, hsj]
            simp [hm1, hclose0])]
          have hlinks2 : ∀ j2 ∈ js, ∀ je2 : ProtoIdentityEntry,
              s.entries[j2]? = some je2 →
              (je2.mid ∈ (tea.cross_modal_links ++ [jea.mid]) ↔
                je2.mid ∈ te0.cross_modal_links) := by
            intro j2 hj2 je2 hsj2
            constructor
            · intro h
              rcases List.mem_append.mp h with h | h
              · exact (hlinkstail j2 hj2 je2 hsj2).mp h
              · exfalso
                have hmeq : je2.mid = je0.mid := by
                  rw [List.mem_singleton.mp h, hjeam]
                exact hjnotin ((hmid j2 j je2 je0 hsj2 hsj hmeq) ▸ hj2)
            · intro h
              exact List.mem_append_left _ ((hlinkstail j2 hj2 je2 hsj2).mpr h)
          show (js.foldl (linkPairStep tol t) (linkPairStep tol t acc j)).2 = _
          by_cases hm2 : tea.mid ∈ jea.cross_modal_links
          · rw [linkPairStep_teOnly htea hjea hclosea hm1a hm2]
            have hrec := ih hndtail hjttail
              (setEntry acc.1 t
                { tea with cross_modal_links :=
                  tea.cross_modal_links ++ [jea.mid] }, acc.2 + 1)
              { tea with cross_modal_links := tea.cross_modal_links ++ [jea.mid] }
              (fieldsEq_trans hfe (setEntry_fieldsEq htea [jea.mid]))
              (setEntry_get_same htea _) hlinks2
            rw [hrec]
            simp only [List.length_cons]
            omega
          · rw [linkPairStep_neither htea hjea hclosea hm1a hm2]
            have hjea2 : (setEntry acc.1 t
                { tea with cross_modal_links :=
                  tea.cross_modal_links ++ [jea.mid] }).entries[j]? = some jea := by
              rw [setEntry_get_other _ _ _ (Ne.symm hjtt)]
              exact hjea
            have hrec := ih hndtail hjttail
              (setEntry (setEntry acc.1 t
                { tea with cross_modal_links :=
                  tea.cross_modal_links ++ [jea.mid] }) j
                { jea with cross_modal_links :=
                  jea.cross_modal_links ++ [tea.mid] }, acc.2 + 1)
              { tea with cross_modal_links := tea.cross_modal_links ++ [jea.mid] }
              (fieldsEq_trans hfe (fieldsEq_trans (setEntry_fieldsEq htea [jea.mid])
                (setEntry_fieldsEq hjea2 [tea.mid])))
              (by rw [setEntry_get_other _ _ _ hjtt]
                  exact setEntry_get_same htea _) hlinks2
            rw [hrec]
            simp only [List.length_cons]
            omega
      · -- fundamentals too far apart: skipped entirely
        have hclosea : ¬ |jea.fundamental_freq - tea.fundamental_freq| < tol := by
          rw [hjeaf, hteaf]
          exact hclose0
        rw [List.filter_cons_of_neg (by
          intro h
          replace h : (match s.entries[t]?, s.entries[j]? with
            | some te, some je =>
              decide (|je.fundamental_freq - te.fundamental_freq| < tol) &&
                decide (je.mid ∉ te.cross_modal_links)
            | _, _ => false) = true := h
          rw [hte0, hsj] at h
          simp [hclose0] at h)]
        show (js.foldl (linkPairStep tol t) (linkPairStep tol t acc j)).2 = _
        rw [linkPairStep_far htea hjea hclosea]
        exact ih hndtail hjttail acc tea hfe htea hlinkstail

theorem modalityIdxs_disjoint {s : VoxelCloud} {m1 m2 : String} (hne : m1 ≠ m2) :
    List.Disjoint (modalityIdxs s m1) (modalityIdxs s m2) := by
  intro i h1 h2
  obtain ⟨e1, he1, hm1⟩ := mem_modalityIdxs h1
  obtain ⟨e2, he2, hm2⟩ := mem_modalityIdxs h2
  rw [he1] at he2
  have he : e1 = e2 := Option.some.inj he2
  subst he
  exact hne (hm1.symm.trans hm2)

theorem outerFold_count {tol : ℚ} {s : VoxelCloud}
    (hmid : ∀ (i1 i2 : ℕ) (e1 e2 : ProtoIdentityEntry),
      s.entries[i1]? = some e1 → s.entries[i2]? = some e2 →
      e1.mid = e2.mid → i1 = i2) :
    ∀ (ts : List ℕ), ts.Nodup →
      (∀ t2 ∈ ts, ∃ te, s.entries[t2]? = some te ∧ te.modality = "text") →
      ∀ (acc : VoxelCloud × ℕ),
      FieldsEq s acc.1 →
      (∀ t2 ∈ ts, acc.1.entries[t2]? = s.entries[t2]?) →
      (ts.foldl (fun a t2 =>
          (modalityIdxs s "image" ++ modalityIdxs s "audio").foldl
            (linkPairStep tol t2) a) acc).2
        = acc.2 + (ts.map (fun t2 =>
            ((modalityIdxs s "image" ++ modalityIdxs s "audio").filter (fun j2 =>
              match s.entries[t2]?, s.entries[j2]? with
              | some te, some je =>
                decide (|je.fundamental_freq - te.fundamental_freq| < tol) &&
                  decide (je.mid ∉ te.cross_modal_links)
              | _, _ => false)).length)).sum := by
  intro ts
  induction ts with
  | nil => intro _ _ acc _ _; rfl
  | cons t ts ih =>
    intro hnd hmod acc hfe hsame
    obtain ⟨te0, hte0, htm0⟩ := hmod t (List.mem_cons_self t ts)
    have hta : acc.1.entries[t]? = some te0 := by
      rw [hsame t (List.mem_cons_self t ts)]
      exact hte0
    have hjprop : ∀ j ∈ modalityIdxs s "image" ++ modalityIdxs s "audio",
        ∃ je, s.entries[j]? = some je ∧
          (je.modality = "image" ∨ je.modality = "audio") := by
      intro j hj
      rcases List.mem_append.mp hj with h | h
      · obtain ⟨je, hje, hm⟩ := mem_modalityIdxs h
        exact ⟨je, hje, Or.inl hm⟩
      · obtain ⟨je, hje, hm⟩ := mem_modalityIdxs h
        exact ⟨je, hje, Or.inr hm⟩
    have hjnet : ∀ t2 ∈ t :: ts,
        ∀ j ∈ modalityIdxs s "image" ++ modalityIdxs s "audio", j ≠ t2 := by
      intro t2 ht2 j hj
      obtain ⟨je, hje, hjm⟩ := hjprop j hj
      obtain ⟨te2, hte2, htm2⟩ := hmod t2 ht2
      intro hjt2
      subst hjt2
      rw [hje] at hte2
      have he : je = te2 := Option.some.inj hte2
      subst he
      rcases hjm with h | h
      · rw [htm2] at h; exact absurd h (by decide)
      · rw [htm2] at h; exact absurd h (by decide)
    have hndo : (modalityIdxs s "image" ++ modalityIdxs s "audio").Nodup :=
      (nodup_modalityIdxs s "image").append (nodup_modalityIdxs s "audio")
        (modalityIdxs_disjoint (by decide))
    have hinner := @innerFold_count tol s t te0 hte0 hmid
      (modalityIdxs s "image" ++ modalityIdxs s "audio") hndo
      (fun j hj => hjnet t (List.mem_cons_self t ts) j hj) acc te0 hfe hta
      (fun _ _ _ _ => Iff.rfl)
    have hfe2 : FieldsEq s ((modalityIdxs s "image" ++
        modalityIdxs s "audio").foldl (linkPairStep tol t) acc).1 :=
      fieldsEq_trans hfe (innerFold_mono tol t _ acc).1
    have hsame2 : ∀ t2 ∈ ts, ((modalityIdxs s "image" ++
        modalityIdxs s "audio").foldl (linkPairStep tol t) acc).1.entries[t2]?
        = s.entries[t2]? := by
      intro t2 ht2
      have hne : t2 ≠ t := by
        intro h
        subst h
        exact (List.nodup_cons.mp hnd).1 ht2
      have hframe := innerFold_frame tol t
        (modalityIdxs s "image" ++ modalityIdxs s "audio") acc t2 hne
        (fun j hj => Ne.symm (hjnet t2 (List.mem_cons_of_mem t ht2) j hj))
      rw [hframe]
      exact hsame t2 (List.mem_cons_of_mem t ht2)
    have hrest := ih (List.nodup_cons.mp hnd).2
      (fun t2 ht2 => hmod t2 (List.mem_cons_of_mem t ht2))
      ((modalityIdxs s "image" ++ modalityIdxs s "audio").foldl
        (linkPairStep tol t) acc) hfe2 hsame2
    show (ts.foldl (fun a t2 =>
        (modalityIdxs s "image" ++ modalityIdxs s "audio").foldl
          (linkPairStep tol t2) a)
      ((modalityIdxs s "image" ++ modalityIdxs s "audio").foldl
        (linkPairStep tol t) acc)).2
      = acc.2 + ((t :: ts).map (fun t2 =>
          ((modalityIdxs s "image" ++ modalityIdxs s "audio").filter (fun j2 =>
            match s.entries[t2]?, s.entries[j2]? with
            | some te, some je =>
              decide (|je.fundamental_freq - te.fundamental_freq| < tol) &&
                decide (je.mid ∉ te.cross_modal_links)
            | _, _ => false)).length)).sum
    rw [hrest, hinner]
    simp only [List.map_cons, List.sum_cons]
    omega

theorem linkCross_count (s : VoxelCloud) (tol : ℚ)
    (hmid : ∀ (i1 i2 : ℕ) (e1 e2 : ProtoIdentityEntry),
      s.entries[i1]? = some e1 → s.entries[i2]? = some e2 →
      e1.mid = e2.mid → i1 = i2) :
    (linkCrossModalProtos s tol).2 = newLinkCount s tol := by
  have h := @outerFold_count tol s hmid (modalityIdxs s "text")
    (nodup_modalityIdxs s "text") (fun _ ht2 => mem_modalityIdxs ht2)
    (s, 0) (fieldsEq_refl s) (fun _ _ => rfl)
  exact h.trans (Nat.zero_add _)

/-- C9: the spec claims that after link_cross_modal_protos every pair of one text
record and one non-text record within the frequency tolerance is mutually linked,
re-running creates no duplicates, and the return value counts the newly created
links.  The code only ever visits the image and audio modality groups, so the claim
holds in this amended form: after the call every (text, image-or-audio) pair whose
fundamentals differ by strictly less than the tolerance is mutually linked; when all
record identifiers are distinct the returned integer is the number of text-side
links newly appended; and re-running the pass returns the same store with zero new
links. -/
theorem c9_cross_modal_linking (s : VoxelCloud) (tol : ℚ)
    (hmid : ∀ (i1 i2 : ℕ) (e1 e2 : ProtoIdentityEntry),
      s.entries[i1]? = some e1 → s.entries[i2]? = some e2 →
      e1.mid = e2.mid → i1 = i2) :
    AllLinked (linkCrossModalProtos s tol).1 tol ∧
    (linkCrossModalProtos s tol).2 = newLinkCount s tol ∧
    linkCrossModalProtos (linkCrossModalProtos s tol).1 tol =
      ((linkCrossModalProtos s tol).1, 0) :=
  ⟨linkCross_allLinked s tol, linkCross_count s tol hmid,
    linkCross_noop (linkCross_allLinked s tol)⟩

/-- C9 counterexample to the literal claim: a video record within tolerance of a
text record is never visited — the pass returns zero, leaves the store unchanged and
the pair unlinked, although the claim covers every non-text modality. -/
theorem c9_video_never_linked_counterexample :
    (linkCrossModalProtos textVideoStore (1/10)).2 = 0 ∧
    (linkCrossModalProtos textVideoStore (1/10)).1 = textVideoStore ∧
    textVideoStore.entries[0]? = some textEntry ∧
    textVideoStore.entries[1]? = some videoEntry ∧
    textEntry.modality = "text" ∧
    videoEntry.modality ≠ "text" ∧
    |videoEntry.fundamental_freq - textEntry.fundamental_freq| < 1/10 ∧
    videoEntry.mid ∉ textEntry.cross_modal_links := by
  refine ⟨?_, ?_, ?_, ?_, ?_, ?_, ?_, ?_⟩ <;> with_unfolding_all decide

/-- Witness for C9 at a concrete store: a text and an image record share the
fundamental and have distinct identifiers; one link is counted, the two records end
up mutually linked, and a second run returns the same store reporting zero. -/
theorem c9_cross_modal_linking_witness :
    (∀ (i1 i2 : ℕ) (e1 e2 : ProtoIdentityEntry),
        textImageStore.entries[i1]? = some e1 →
        textImageStore.entries[i2]? = some e2 → e1.mid = e2.mid → i1 = i2) ∧
    AllLinked (linkCrossModalProtos textImageStore (1/10)).1 (1/10) ∧
    (linkCrossModalProtos textImageStore (1/10)).2 =
      newLinkCount textImageStore (1/10) ∧
    linkCrossModalProtos (linkCrossModalProtos textImageStore (1/10)).1 (1/10) =
      ((linkCrossModalProtos textImageStore (1/10)).1, 0) ∧
    (linkCrossModalProtos textImageStore (1/10)).2 = 1 ∧
    ((linkCrossModalProtos textImageStore (1/10)).1.entries.map
      (fun e => e.cross_modal_links)) = [["i0"], ["t0"]] := by
  have hmid : ∀ (i1 i2 : ℕ) (e1 e2 : ProtoIdentityEntry),
      textImageStore.entries[i1]? = some e1 →
      textImageStore.entries[i2]? = some e2 → e1.mid = e2.mid → i1 = i2 := by
    have g : ∀ (i : ℕ) (e : ProtoIdentityEntry),
        textImageStore.entries[i]? = some e →
        (i = 0 ∧ e.mid = "t0") ∨ (i = 1 ∧ e.mid = "i0") := by
      intro i e he
      match i, he with
      | 0, he =>
        refine Or.inl ⟨rfl, ?_⟩
        have he2 : e = textEntry :=
          Option.some.inj (he.symm.trans
            (show textImageStore.entries[0]? = some textEntry by
              with_unfolding_all decide))
        rw [he2]
        with_unfolding_all decide
      | 1, he =>
        refine Or.inr ⟨rfl, ?_⟩
        have he2 : e = imageEntry :=
          Option.some.inj (he.symm.trans
            (show textImageStore.entries[1]? = some imageEntry by
              with_unfolding_all decide))
        rw [he2]
        with_unfolding_all decide
      | n + 2, he => exact absurd he (by simp [textImageStore])
    intro i1 i2 e1 e2 h1 h2 hm
    rcases g i1 e1 h1 with ⟨hi1, hm1⟩ | ⟨hi1, hm1⟩ <;>
      rcases g i2 e2 h2 with ⟨hi2, hm2⟩ | ⟨hi2, hm2⟩
    · rw [hi1, hi2]
    · exact absurd (hm1.symm.trans (hm.trans hm2)) (by decide)
    · exact absurd (hm1.symm.trans (hm.trans hm2)) (by decide)
    · rw [hi1, hi2]
  obtain ⟨hall, hcount, hnoop⟩ :=
    c9_cross_modal_linking textImageStore (1/10) hmid
  exact ⟨hmid, hall, hcount, hnoop, by with_unfolding_all decide,
    by with_unfolding_all decide⟩

end Genesis
